import Mathlib

/-!
Shallow embedding of the deterministic negotiation-market simulator
(`src/core`, `src/negotiation`, `src/market`, `src/evaluation`) and proofs
about it.  Python floats are modelled by rationals; Python's `round(x, n)`
(round-half-to-even at `n` decimal digits) is `pyRound n`; Python's
truthiness of numbers (`x or y` falls back on `y` when `x` is `None` or
`0.0`) is `pyOrQ`; `time.time()` is an oracle argument, never inspected.
The seeded Mersenne-Twister generator `random.Random` is modelled by an
arbitrary deterministic implementation `RNGOps`: a state type with pure
draw functions, initialised from an integer seed, which the theorems
quantify over.
-/

namespace FYPSim

/-- Round-half-to-even of a rational to an integer (Python's `round(x)`). -/
def roundHalfEvenInt (q : ℚ) : ℤ :=
  let f := ⌊q⌋
  if q - f < 1/2 then f
  else if 1/2 < q - f then f + 1
  else if f % 2 = 0 then f else f + 1

/-- Python's `round(x, nd)` on our rational model of floats. -/
def pyRound (nd : ℕ) (q : ℚ) : ℚ :=
  (roundHalfEvenInt (q * (10 : ℚ) ^ nd) : ℚ) / (10 : ℚ) ^ nd

/-- Python's `int(x)`: truncation toward zero. -/
def pyInt (q : ℚ) : ℤ := if 0 ≤ q then ⌊q⌋ else ⌈q⌉

/-- Python truthiness fallback `x or d` for an optional number:
`None` and `0.0` are falsy. -/
def pyOrQ (x : Option ℚ) (d : ℚ) : ℚ :=
  match x with
  | some v => if v = 0 then d else v
  | none => d

/-- Two decimal digits with a leading zero (for `%.2f` fractional parts). -/
def pad2 (n : ℕ) : String := if n < 10 then "0" ++ toString n else toString n

/-- Python's `f"{q:.2f}"` float formatting on the rational model. -/
def fmt2 (q : ℚ) : String :=
  let n := roundHalfEvenInt (q * 100)
  if n < 0 then "-" ++ toString ((-n) / 100) ++ "." ++ pad2 ((-n) % 100).toNat
  else toString (n / 100) ++ "." ++ pad2 (n % 100).toNat

/-! ## Core domain types (`src/core/types.py`) -/

/-- `AgentRole` from `src/core/types.py`. -/
inductive AgentRole where
  | buyer
  | seller
deriving DecidableEq, Repr

/-- The `.value` string of the role enum. -/
def AgentRole.value : AgentRole → String
  | .buyer => "buyer"
  | .seller => "seller"

/-- `ActionType` from `src/core/types.py`. -/
inductive ActionType where
  | offer
  | counter
  | accept
  | reject
deriving DecidableEq, Repr

/-- The `.value` string of the action enum. -/
def ActionType.value : ActionType → String
  | .offer => "offer"
  | .counter => "counter"
  | .accept => "accept"
  | .reject => "reject"

/-- `Item` from `src/core/types.py`. -/
structure Item where
  item_id : String
  name : String
  reference_price : ℚ
deriving DecidableEq, Repr

/-- `BuyerState` from `src/core/types.py`. -/
structure BuyerState where
  buyer_id : String
  value : ℚ
  budget : ℚ
  patience : ℤ
deriving DecidableEq, Repr

/-- `SellerState` from `src/core/types.py`. -/
structure SellerState where
  seller_id : String
  cost : ℚ
  target_margin : ℚ
  patience : ℤ
deriving DecidableEq, Repr

/-- `NegotiationAction` from `src/core/types.py`. -/
structure NegotiationAction where
  action : ActionType
  offer_price : Option ℚ
  message_public : String
  rationale_private : String
deriving DecidableEq, Repr

/-- `NegotiationTurn` from `src/core/types.py`; the timestamp comes from
`time.time()` and is supplied by an oracle. -/
structure NegotiationTurn where
  round_number : ℕ
  agent_role : AgentRole
  action : NegotiationAction
  timestamp : ℚ
deriving DecidableEq, Repr

/-- `TerminationReason` from `src/core/types.py`. -/
inductive TerminationReason where
  | accepted
  | rejected
  | timeout
  | invalid
deriving DecidableEq, Repr

/-- The risk-event dict built in `ActionJudge.enforce` (`src/negotiation/judge.py`). -/
structure RiskEvent where
  round : ℕ
  role : String
  violation_type : Option String
  reason : String
  attempted_action : String
  attempted_price : Option ℚ
  time_step : ℕ
deriving DecidableEq, Repr

/-- `NegotiationResult` from `src/core/types.py`. -/
structure NegotiationResult where
  item : Item
  buyer_id : String
  seller_id : String
  deal_made : Bool
  deal_price : Option ℚ
  termination_reason : TerminationReason
  rounds_taken : ℕ
  history : List NegotiationTurn
  buyer_value : ℚ
  seller_cost : ℚ
  buyer_surplus : ℚ
  seller_surplus : ℚ
  risk_events : List RiskEvent
  time_step : ℕ
deriving DecidableEq, Repr

/-- `AgentContext` from `src/core/types.py`. -/
structure AgentContext where
  item : Item
  role : AgentRole
  round_number : ℕ
  max_rounds : ℕ
  history : List NegotiationTurn
  last_offer : Option ℚ
  reservation_price : ℚ
  budget : Option ℚ
  target_margin : Option ℚ
deriving DecidableEq, Repr

/-! ## Constraint validation (`src/negotiation/constraints.py`) -/

/-- `ValidationResult` from `src/negotiation/constraints.py`. -/
structure ValidationResult where
  valid : Bool
  reason : String
  violation_type : Option String
deriving DecidableEq, Repr

/-- `validate_action` from `src/negotiation/constraints.py`. -/
def validate_action (role : AgentRole) (action : NegotiationAction)
    (buyer : BuyerState) (seller : SellerState) (last_offer : Option ℚ)
    (_item : Item) (_round_number : ℕ) (min_price max_price : ℚ) :
    ValidationResult :=
  match action.action with
  | .offer | .counter =>
    match action.offer_price with
    | none => ⟨false, "offer/counter must include a price", some "logic"⟩
    | some price =>
      if price < min_price ∨ price > max_price then
        ⟨false, "Price $" ++ fmt2 price ++ " outside bounds [$" ++
          fmt2 min_price ++ ", $" ++ fmt2 max_price ++ "]", some "bounds"⟩
      else if role = .buyer ∧ price > buyer.budget then
        ⟨false, "Buyer offer $" ++ fmt2 price ++ " exceeds budget $" ++
          fmt2 buyer.budget, some "budget"⟩
      else if role = .buyer ∧ price > buyer.value then
        ⟨false, "Buyer offer $" ++ fmt2 price ++ " exceeds value $" ++
          fmt2 buyer.value, some "budget"⟩
      else if role = .seller ∧ price < seller.cost then
        ⟨false, "Seller offer $" ++ fmt2 price ++ " below cost $" ++
          fmt2 seller.cost, some "cost"⟩
      else ⟨true, "", none⟩
  | .accept =>
    match last_offer with
    | none => ⟨false, "Cannot accept without a prior offer", some "logic"⟩
    | some lo =>
      if role = .buyer ∧ lo > buyer.budget then
        ⟨false, "Cannot accept $" ++ fmt2 lo ++ ": exceeds budget $" ++
          fmt2 buyer.budget, some "budget"⟩
      else if role = .buyer ∧ lo > buyer.value then
        ⟨false, "Cannot accept $" ++ fmt2 lo ++ ": exceeds value $" ++
          fmt2 buyer.value, some "budget"⟩
      else if role = .seller ∧ lo < seller.cost then
        ⟨false, "Cannot accept $" ++ fmt2 lo ++ ": below cost $" ++
          fmt2 seller.cost, some "cost"⟩
      else ⟨true, "", none⟩
  | .reject => ⟨true, "", none⟩

/-! ## ActionJudge (`src/negotiation/judge.py`) -/

/-- `ActionJudge` carries the global price bounds. -/
structure ActionJudge where
  min_price : ℚ
  max_price : ℚ
deriving DecidableEq, Repr

/-- `ActionJudge.correct_first_round` from `src/negotiation/judge.py`:
note the Python `action.offer_price or fallback_price`, which falls back
also on a carried price of `0.0`. -/
def ActionJudge.correct_first_round (_j : ActionJudge)
    (action : NegotiationAction) (role : AgentRole)
    (buyer : BuyerState) (seller : SellerState) : NegotiationAction :=
  let action :=
    if action.action = .counter then
      ⟨.offer, action.offer_price, action.message_public, action.rationale_private⟩
    else action
  if action.action = .accept ∨ action.action = .reject then
    let fallback_price :=
      if role = .buyer then pyRound 2 (buyer.value * (1/2))
      else pyRound 2 (seller.cost * (3/2))
    ⟨.offer, some (pyOrQ action.offer_price fallback_price),
      "Opening offer.", "Corrected from accept/reject on round 0."⟩
  else action

/-- The action validated inside `enforce`: first-round correction applies
only at round 0. -/
def correctedAt (j : ActionJudge) (role : AgentRole)
    (action : NegotiationAction) (buyer : BuyerState) (seller : SellerState)
    (round_number : ℕ) : NegotiationAction :=
  if round_number = 0 then j.correct_first_round action role buyer seller
  else action

/-- `ActionJudge.enforce` from `src/negotiation/judge.py`. -/
def ActionJudge.enforce (j : ActionJudge) (role : AgentRole)
    (action : NegotiationAction) (buyer : BuyerState) (seller : SellerState)
    (last_offer : Option ℚ) (item : Item) (round_number : ℕ)
    (time_step : ℕ) : NegotiationAction × Option RiskEvent :=
  let action := correctedAt j role action buyer seller round_number
  let result := validate_action role action buyer seller last_offer item
    round_number j.min_price j.max_price
  if result.valid then (action, none)
  else
    (⟨.reject, none, "I cannot continue this negotiation.",
        "Auto-corrected: " ++ result.reason⟩,
      some ⟨round_number, role.value, result.violation_type, result.reason,
        action.action.value, action.offer_price, time_step⟩)

/-! ## NegotiationSession (`src/negotiation/session.py`) -/

/-- The per-session constants handed to `NegotiationSession.__init__`,
with the two decision capabilities and the `time.time()` oracle. -/
structure SessionParams where
  buyer_decide : AgentContext → NegotiationAction
  seller_decide : AgentContext → NegotiationAction
  item : Item
  buyer : BuyerState
  seller : SellerState
  max_rounds : ℕ
  min_price : ℚ
  max_price : ℚ
  time_step : ℕ
  ts : ℕ → ℚ

/-- The mutable session state (`transcript`, `risk_events`, `last_offer`). -/
structure SessionState where
  transcript : List NegotiationTurn
  risk_events : List RiskEvent
  last_offer : Option ℚ
deriving DecidableEq

/-- The acting role of a round (`round_num % 2 == 0` acts the buyer). -/
def parityRole (r : ℕ) : AgentRole := if r % 2 = 0 then .buyer else .seller

/-- The `AgentContext` built at the head of each loop iteration of
`NegotiationSession.run`. -/
def mkCtx (S : SessionParams) (r : ℕ) (hist : List NegotiationTurn)
    (lo : Option ℚ) : AgentContext :=
  if r % 2 = 0 then
    ⟨S.item, .buyer, r, S.max_rounds, hist, lo, S.buyer.value,
      some S.buyer.budget, none⟩
  else
    ⟨S.item, .seller, r, S.max_rounds, hist, lo, S.seller.cost,
      none, some S.seller.target_margin⟩

/-- The decision capability invoked at round `r`. -/
def activeDecide (S : SessionParams) (r : ℕ) :
    AgentContext → NegotiationAction :=
  if r % 2 = 0 then S.buyer_decide else S.seller_decide

/-- `self.last_offer = action.offer_price if it is not None` (step 6 of a
round: a priced action becomes the new last offer). -/
def updLast (cur : Option ℚ) (p : Option ℚ) : Option ℚ :=
  match p with
  | some v => some v
  | none => cur

/-- `NegotiationSession._build_result`. -/
def buildResult (S : SessionParams) (st : SessionState) (deal_made : Bool)
    (deal_price : Option ℚ) (rounds : ℕ) (reason : TerminationReason)
    (buyer_surplus seller_surplus : ℚ) : NegotiationResult :=
  ⟨S.item, S.buyer.buyer_id, S.seller.seller_id, deal_made, deal_price,
    reason, rounds, st.transcript, S.buyer.value, S.seller.cost,
    buyer_surplus, seller_surplus, st.risk_events, S.time_step⟩

/-- `NegotiationSession._settle`: note the Python truthiness check
`if deal_price` which treats a price of `0.0` like `None`. -/
def settle (S : SessionParams) (st : SessionState) (deal_price : Option ℚ)
    (rounds : ℕ) : NegotiationResult :=
  let buyer_surplus :=
    match deal_price with
    | some p => if p = 0 then 0 else S.buyer.value - p
    | none => 0
  let seller_surplus :=
    match deal_price with
    | some p => if p = 0 then 0 else p - S.seller.cost
    | none => 0
  buildResult S st true deal_price rounds .accepted buyer_surplus
    seller_surplus

/-- One loop iteration of `NegotiationSession.run` up to (not including)
the termination check: decide, enforce, record risk event and turn.
Returns the enforced action and the state after appending the turn. -/
def sessionStep (S : SessionParams) (r : ℕ) (st : SessionState) :
    NegotiationAction × SessionState :=
  let action0 := activeDecide S r (mkCtx S r st.transcript st.last_offer)
  let judge : ActionJudge := ⟨S.min_price, S.max_price⟩
  let pr := judge.enforce (parityRole r) action0 S.buyer S.seller
    st.last_offer S.item r S.time_step
  ⟨pr.1,
    ⟨st.transcript ++ [⟨r, parityRole r, pr.1, S.ts r⟩],
      st.risk_events ++ pr.2.toList, st.last_offer⟩⟩

/-- The loop of `NegotiationSession.run`, by remaining fuel:
`fuel + r = max_rounds` at every call. -/
def sessionRunAux (S : SessionParams) : ℕ → ℕ → SessionState → NegotiationResult
  | 0, _r, st => buildResult S st false none S.max_rounds .timeout 0 0
  | fuel + 1, r, st =>
    let pr := sessionStep S r st
    if pr.1.action = .accept then
      settle S pr.2 pr.2.last_offer (r + 1)
    else if pr.1.action = .reject then
      buildResult S pr.2 false none (r + 1) .rejected 0 0
    else
      sessionRunAux S fuel (r + 1)
        ⟨pr.2.transcript, pr.2.risk_events,
          updLast pr.2.last_offer pr.1.offer_price⟩

/-- `NegotiationSession.run`. -/
def sessionRun (S : SessionParams) : NegotiationResult :=
  sessionRunAux S S.max_rounds 0 ⟨[], [], none⟩

/-! ## Rule-based agent (`src/agents/rule_based.py`) -/

/-- Python's `round_number >= max_rounds - 1` on ints (may be negative). -/
def lastRound (round_number max_rounds : ℕ) : Bool :=
  (max_rounds : ℤ) - 1 ≤ (round_number : ℤ)

/-- Linear-concession progress `round_number / max(max_rounds - 1, 1)`. -/
def concessionProgress (round_number max_rounds : ℕ) : ℚ :=
  (round_number : ℚ) / ((max ((max_rounds : ℤ) - 1) 1 : ℤ) : ℚ)

/-- The offer/counter branch of `RuleBasedAgent._decide_buyer`. -/
def buyerOffer (ctx : AgentContext) (cap target progress : ℚ) :
    NegotiationAction :=
  let offer_price := pyRound 2 (min target cap)
  ⟨if ctx.round_number = 0 then .offer else .counter, some offer_price,
    "I propose $" ++ fmt2 offer_price ++ ".",
    "target=" ++ fmt2 target ++ " cap=" ++ fmt2 cap ++ " progress=" ++
      fmt2 progress⟩

/-- `RuleBasedAgent._decide_buyer`. -/
def ruleDecideBuyer (ctx : AgentContext) : NegotiationAction :=
  let cap := min ctx.reservation_price (pyOrQ ctx.budget ctx.reservation_price)
  let initial := cap * (1/2)
  let progress := concessionProgress ctx.round_number ctx.max_rounds
  let target := initial + (cap - initial) * progress
  match ctx.last_offer with
  | some lo =>
    if lo ≤ target then
      ⟨.accept, none, "I accept your offer.",
        "Offer $" ++ fmt2 lo ++ " <= target $" ++ fmt2 target⟩
    else if lastRound ctx.round_number ctx.max_rounds then
      if lo ≤ cap then
        ⟨.accept, none, "Fine, I'll take it.",
          "Last round – accepting within constraints."⟩
      else
        ⟨.reject, none, "We couldn't reach an agreement.",
          "Last round – offer exceeds constraints."⟩
    else buyerOffer ctx cap target progress
  | none =>
    if lastRound ctx.round_number ctx.max_rounds then
      ⟨.reject, none, "We couldn't reach an agreement.",
        "Last round – offer exceeds constraints."⟩
    else buyerOffer ctx cap target progress

/-- The offer/counter branch of `RuleBasedAgent._decide_seller`. -/
def sellerOffer (ctx : AgentContext) (cost target progress : ℚ) :
    NegotiationAction :=
  let offer_price := pyRound 2 (max target cost)
  ⟨if ctx.round_number = 0 then .offer else .counter, some offer_price,
    "How about $" ++ fmt2 offer_price ++ "?",
    "target=" ++ fmt2 target ++ " cost=" ++ fmt2 cost ++ " progress=" ++
      fmt2 progress⟩

/-- `RuleBasedAgent._decide_seller` (note `ctx.target_margin or 0.15`). -/
def ruleDecideSeller (ctx : AgentContext) : NegotiationAction :=
  let cost := ctx.reservation_price
  let margin := pyOrQ ctx.target_margin (15/100)
  let initial := cost * (1 + 2 * margin)
  let progress := concessionProgress ctx.round_number ctx.max_rounds
  let target := initial - (initial - cost) * progress
  match ctx.last_offer with
  | some lo =>
    if target ≤ lo then
      ⟨.accept, none, "Deal!",
        "Offer $" ++ fmt2 lo ++ " >= target $" ++ fmt2 target⟩
    else if lastRound ctx.round_number ctx.max_rounds then
      if cost ≤ lo then
        ⟨.accept, none, "Alright, let's close this deal.",
          "Last round – accepting above cost."⟩
      else
        ⟨.reject, none, "Sorry, we can't agree on a price.",
          "Last round – offer below cost."⟩
    else sellerOffer ctx cost target progress
  | none =>
    if lastRound ctx.round_number ctx.max_rounds then
      ⟨.reject, none, "Sorry, we can't agree on a price.",
        "Last round – offer below cost."⟩
    else sellerOffer ctx cost target progress

/-- `RuleBasedAgent.decide`. -/
def ruleDecide (ctx : AgentContext) : NegotiationAction :=
  if ctx.role = .buyer then ruleDecideBuyer ctx else ruleDecideSeller ctx

/-! ## Random source (`src/core/rng.py`)

`SeededRNG` wraps `random.Random(seed)`, a deterministic generator.  We
model any such generator by a state type `σ` with pure draw functions;
`choiceIdx st n` returns the chosen index into a sequence of length `n`,
and `shufflePerm st n` the index permutation a shuffle applies. -/

/-- A deterministic seeded random generator implementation. -/
structure RNGOps (σ : Type) where
  init : ℤ → σ
  random : σ → ℚ × σ
  uniform : σ → ℚ → ℚ → ℚ × σ
  randint : σ → ℤ → ℤ → ℤ × σ
  choiceIdx : σ → ℕ → ℕ × σ
  shufflePerm : σ → ℕ → List ℕ × σ

/-- `SeededRNG.fork`: draw `randint(0, 2**31 - 1)` from the parent and
seed a fresh child with it. -/
def fork {σ : Type} (ops : RNGOps σ) (st : σ) : σ × σ :=
  let pr := ops.randint st 0 (2 ^ 31 - 1)
  (ops.init pr.1, pr.2)

/-! ## ParameterSource and population generation (`src/market/matching.py`) -/

/-- A fixed-value configuration entry: Python's scalar-or-list. -/
inductive FixedVal where
  | scalar (v : ℚ)
  | values (vs : List ℚ)
deriving DecidableEq

/-- `ParameterSource.__init__` normalises a scalar to a one-element list. -/
def FixedVal.toList : FixedVal → List ℚ
  | .scalar v => [v]
  | .values vs => vs

/-- `ParameterSource` (`src/market/matching.py`): `_values` is `None` in
distribution mode; `_cycle_idx` is the stateful cycle position. -/
structure ParameterSource where
  values : Option (List ℚ)
  dist_min : ℚ
  dist_max : ℚ
  is_int : Bool
  selection : String
  cycle_idx : ℕ
deriving DecidableEq

/-- The `_src` helper: build a `ParameterSource` (cycle index starts at 0). -/
def mkSrc (fixed_val : Option FixedVal) (dist_min dist_max : ℚ)
    (is_int : Bool) (selection : String) : ParameterSource :=
  ⟨fixed_val.map FixedVal.toList, dist_min, dist_max, is_int, selection, 0⟩

/-- `ParameterSource.draw`: returns the drawn value, the updated source
(cycle index) and the updated RNG state. -/
def ParameterSource.draw {σ : Type} (ops : RNGOps σ) (ps : ParameterSource)
    (st : σ) : ℚ × ParameterSource × σ :=
  match ps.values with
  | some vals =>
    let pr : ℚ × ParameterSource × σ :=
      if vals.length = 1 then (vals.headD 0, ps, st)
      else if ps.selection = "random" then
        let c := ops.choiceIdx st vals.length
        (vals.getD c.1 0, ps, c.2)
      else
        (vals.getD (ps.cycle_idx % vals.length) 0,
          ⟨ps.values, ps.dist_min, ps.dist_max, ps.is_int, ps.selection,
            ps.cycle_idx + 1⟩, st)
    (if ps.is_int then ((pyInt pr.1 : ℤ) : ℚ) else pyRound 2 pr.1, pr.2)
  | none =>
    if ps.is_int then
      let pr := ops.randint st (pyInt ps.dist_min) (pyInt ps.dist_max)
      ((pr.1 : ℚ), ps, pr.2)
    else
      let pr := ops.uniform st ps.dist_min ps.dist_max
      (pyRound 2 pr.1, ps, pr.2)

/-- `MarketConfig` (`src/core/config.py`), the fields the generators use. -/
structure MarketConfig where
  buyer_value_min : ℚ
  buyer_value_max : ℚ
  seller_cost_min : ℚ
  seller_cost_max : ℚ
  buyer_budget_min : ℚ
  buyer_budget_max : ℚ
  seller_margin_min : ℚ
  seller_margin_max : ℚ
  buyer_patience_min : ℚ
  buyer_patience_max : ℚ
  seller_patience_min : ℚ
  seller_patience_max : ℚ
  item_ref_price_min : ℚ
  item_ref_price_max : ℚ
  num_item_types : ℕ
deriving DecidableEq

/-- `FixedScenarioConfig` (`src/core/config.py`). -/
structure FixedScenarioConfig where
  buyer_value : Option FixedVal
  buyer_budget : Option FixedVal
  buyer_patience : Option FixedVal
  seller_cost : Option FixedVal
  seller_target_margin : Option FixedVal
  seller_patience : Option FixedVal
  item_reference_price : Option FixedVal
  selection : String
deriving DecidableEq

/-- Python's `f"{i:03d}"`: zero-pad to at least three digits. -/
def pad3 (i : ℕ) : String :=
  if i < 10 then "00" ++ toString i
  else if i < 100 then "0" ++ toString i
  else toString i

/-- The generation loop of `generate_buyers`, threading the three
parameter sources and the RNG state through `count` iterations. -/
def genBuyersAux {σ : Type} (ops : RNGOps σ) (step : ℕ) :
    ℕ → ℕ → ParameterSource → ParameterSource → ParameterSource → σ →
    List BuyerState × σ
  | _i, 0, _value_src, _budget_src, _patience_src, st => ([], st)
  | i, n + 1, value_src, budget_src, patience_src, st =>
    let dv := value_src.draw ops st
    let db := budget_src.draw ops dv.2.2
    let dp := patience_src.draw ops db.2.2
    let buyer : BuyerState :=
      ⟨"buyer_t" ++ toString step ++ "_" ++ pad3 i, dv.1, db.1, pyInt dp.1⟩
    let tl := genBuyersAux ops step (i + 1) n dv.2.1 db.2.1 dp.2.1 dp.2.2
    (buyer :: tl.1, tl.2)

/-- `generate_buyers` (`src/market/matching.py`). -/
def generate_buyers {σ : Type} (ops : RNGOps σ) (count : ℕ) (step : ℕ)
    (cfg : MarketConfig) (fixed : Option FixedScenarioConfig) (st : σ) :
    List BuyerState × σ :=
  let sel := match fixed with | some f => f.selection | none => "cycle"
  let value_src := mkSrc (fixed.bind (fun f => f.buyer_value))
    cfg.buyer_value_min cfg.buyer_value_max false sel
  let budget_src := mkSrc (fixed.bind (fun f => f.buyer_budget))
    cfg.buyer_budget_min cfg.buyer_budget_max false sel
  let patience_src := mkSrc (fixed.bind (fun f => f.buyer_patience))
    cfg.buyer_patience_min cfg.buyer_patience_max true sel
  genBuyersAux ops step 0 count value_src budget_src patience_src st

/-- The generation loop of `generate_sellers`; the drawn margin passes
through `round(margin_src.draw(rng), 4)`. -/
def genSellersAux {σ : Type} (ops : RNGOps σ) (step : ℕ) :
    ℕ → ℕ → ParameterSource → ParameterSource → ParameterSource → σ →
    List SellerState × σ
  | _i, 0, _cost_src, _margin_src, _patience_src, st => ([], st)
  | i, n + 1, cost_src, margin_src, patience_src, st =>
    let dc := cost_src.draw ops st
    let dm := margin_src.draw ops dc.2.2
    let dp := patience_src.draw ops dm.2.2
    let seller : SellerState :=
      ⟨"seller_t" ++ toString step ++ "_" ++ pad3 i, dc.1,
        pyRound 4 dm.1, pyInt dp.1⟩
    let tl := genSellersAux ops step (i + 1) n dc.2.1 dm.2.1 dp.2.1 dp.2.2
    (seller :: tl.1, tl.2)

/-- `generate_sellers` (`src/market/matching.py`). -/
def generate_sellers {σ : Type} (ops : RNGOps σ) (count : ℕ) (step : ℕ)
    (cfg : MarketConfig) (fixed : Option FixedScenarioConfig) (st : σ) :
    List SellerState × σ :=
  let sel := match fixed with | some f => f.selection | none => "cycle"
  let cost_src := mkSrc (fixed.bind (fun f => f.seller_cost))
    cfg.seller_cost_min cfg.seller_cost_max false sel
  let margin_src := mkSrc (fixed.bind (fun f => f.seller_target_margin))
    cfg.seller_margin_min cfg.seller_margin_max false sel
  let patience_src := mkSrc (fixed.bind (fun f => f.seller_patience))
    cfg.seller_patience_min cfg.seller_patience_max true sel
  genSellersAux ops step 0 count cost_src margin_src patience_src st

/-! ## Shocks (`src/market/shocks.py`) -/

/-- `ShockConfig` (`src/core/config.py`). -/
structure ShockConfig where
  enabled : Bool
  demand_multiplier_min : ℚ
  demand_multiplier_max : ℚ
  supply_multiplier_min : ℚ
  supply_multiplier_max : ℚ
  shock_probability : ℚ
deriving DecidableEq

/-- `apply_shocks` (`src/market/shocks.py`). -/
def apply_shocks {σ : Type} (ops : RNGOps σ) (buyers : List BuyerState)
    (sellers : List SellerState) (cfg : ShockConfig) (st : σ) :
    (List BuyerState × List SellerState) × σ :=
  if cfg.enabled = false then ((buyers, sellers), st)
  else
    let pr := ops.random st
    if cfg.shock_probability < pr.1 then ((buyers, sellers), pr.2)
    else
      let dm := ops.uniform pr.2 cfg.demand_multiplier_min
        cfg.demand_multiplier_max
      let sm := ops.uniform dm.2 cfg.supply_multiplier_min
        cfg.supply_multiplier_max
      ((buyers.map (fun b =>
          ⟨b.buyer_id, pyRound 2 (b.value * dm.1), b.budget, b.patience⟩),
        sellers.map (fun s =>
          ⟨s.seller_id, pyRound 2 (s.cost * sm.1), s.target_margin,
            s.patience⟩)), sm.2)

/-! ## Matching (`src/market/matcher.py`) -/

/-- Junk values standing in for Python's `IndexError` on an out-of-range
access (never reached on the well-formed inputs the theorems use). -/
def dummyItem : Item := ⟨"", "", 0⟩

/-- See `dummyItem`. -/
def dummyBuyer : BuyerState := ⟨"", 0, 0, 0⟩

/-- See `dummyItem`. -/
def dummySeller : SellerState := ⟨"", 0, 0, 0⟩

/-- Apply a shuffle's index permutation to a list. -/
def applyPerm {α : Type} [Inhabited α] (perm : List ℕ) (l : List α) :
    List α :=
  perm.map (fun i => l.getD i default)

instance : Inhabited BuyerState := ⟨dummyBuyer⟩

instance : Inhabited SellerState := ⟨dummySeller⟩

instance : Inhabited Item := ⟨dummyItem⟩

/-- The per-index loop of `RandomMatcher.match`: draw one item per pair. -/
def matchLoop {σ : Type} (ops : RNGOps σ) (items : List Item)
    (b : List BuyerState) (s : List SellerState) :
    ℕ → ℕ → σ → List (BuyerState × SellerState × Item) × σ
  | _i, 0, st => ([], st)
  | i, n + 1, st =>
    let pr := ops.choiceIdx st items.length
    let item := items.getD pr.1 dummyItem
    let tl := matchLoop ops items b s (i + 1) n pr.2
    ((b.getD i default, s.getD i default, item) :: tl.1, tl.2)

/-- `RandomMatcher.match` (`src/market/matcher.py`). -/
def randomMatch {σ : Type} (ops : RNGOps σ) (buyers : List BuyerState)
    (sellers : List SellerState) (items : List Item) (st : σ) :
    List (BuyerState × SellerState × Item) × σ :=
  let n := min buyers.length sellers.length
  let b0 := buyers.take n
  let s0 := sellers.take n
  let pb := ops.shufflePerm st n
  let b := applyPerm pb.1 b0
  let ps := ops.shufflePerm pb.2 n
  let s := applyPerm ps.1 s0
  matchLoop ops items b s 0 n ps.2

/-! ## Catalog (`src/market/catalog.py`) -/

/-- The `_ITEM_NAMES` table. -/
def ITEM_NAMES : List String :=
  ["Widget", "Gadget", "Doohickey", "Thingamajig", "Gizmo",
   "Contraption", "Apparatus", "Device", "Module", "Component"]

/-- The catalog generation loop of `Catalog.__init__`. -/
def catalogLoop {σ : Type} (ops : RNGOps σ) (ref_min ref_max : ℚ)
    (prices : List ℚ) : ℕ → ℕ → σ → List Item × σ
  | _i, 0, st => ([], st)
  | i, n + 1, st =>
    let name := ITEM_NAMES.getD (i % ITEM_NAMES.length) ""
    let pr :=
      if prices.length ≠ 0 then
        (pyRound 2 (prices.getD (i % prices.length) 0), st)
      else
        let d := ops.uniform st ref_min ref_max
        (pyRound 2 d.1, d.2)
    let item : Item :=
      ⟨"item_" ++ pad3 i, name ++ " " ++ String.mk [Char.ofNat (65 + i)],
        pr.1⟩
    let tl := catalogLoop ops ref_min ref_max prices (i + 1) n pr.2
    (item :: tl.1, tl.2)

/-- `Catalog.__init__` (`src/market/catalog.py`): the generated items. -/
def catalogItems {σ : Type} (ops : RNGOps σ) (num_types : ℕ)
    (ref_price_min ref_price_max : ℚ) (fixed_ref_prices : Option FixedVal)
    (st : σ) : List Item × σ :=
  let prices := match fixed_ref_prices with
    | some fv => fv.toList
    | none => []
  catalogLoop ops ref_price_min ref_price_max prices 0 num_types st

/-! ## MarketSimulator (`src/market/simulator.py`), rule-based agents -/

/-- `NegotiationConfig` (`src/core/config.py`). -/
structure NegotiationConfig where
  max_rounds : ℕ
  min_price : ℚ
  max_price : ℚ
deriving DecidableEq

/-- The `SimulationConfig` fields the core loop consumes. -/
structure SimConfig where
  steps : ℕ
  buyers_per_step : ℕ
  sellers_per_step : ℕ
  seed : ℤ
  scenario_mode : String
  mode : String
  market : MarketConfig
  negotiation : NegotiationConfig
  shock : ShockConfig
  fixed : FixedScenarioConfig

/-- The `NegotiationSession` built per pair in `MarketSimulator.run`,
with `RuleBasedAgent` on both sides. -/
def mkSessParams (cfg : SimConfig) (step : ℕ) (b : BuyerState)
    (s : SellerState) (it : Item) (ts : ℕ → ℚ) : SessionParams :=
  ⟨ruleDecide, ruleDecide, it, b, s, cfg.negotiation.max_rounds,
    cfg.negotiation.min_price, cfg.negotiation.max_price, step, ts⟩

/-- The per-pair session loop of one tick; `ts i` is the timestamp oracle
of the `i`-th session. -/
def runPairSessions (cfg : SimConfig) (step : ℕ) (ts : ℕ → ℕ → ℚ)
    (pairs : List (BuyerState × SellerState × Item)) :
    List NegotiationResult :=
  pairs.enum.map (fun pe =>
    sessionRun (mkSessParams cfg step pe.2.1 pe.2.2.1 pe.2.2.2 (ts pe.1)))

/-- One tick of `MarketSimulator.run`: fork a tick-local stream, generate
populations, apply shocks, match, run sessions.  Returns the tick's
results and the advanced run-level RNG state. -/
def runStep {σ : Type} (ops : RNGOps σ) (cfg : SimConfig)
    (items : List Item) (ts : ℕ → ℕ → ℚ) (step : ℕ) (st : σ) :
    List NegotiationResult × σ :=
  let fk := fork ops st
  let fixed_cfg := if cfg.scenario_mode = "fixed" then some cfg.fixed
    else none
  let gb := generate_buyers ops cfg.buyers_per_step step cfg.market
    fixed_cfg fk.1
  let gs := generate_sellers ops cfg.sellers_per_step step cfg.market
    fixed_cfg gb.2
  let sh := apply_shocks ops gb.1 gs.1 cfg.shock gs.2
  let mt := randomMatch ops sh.1.1 sh.1.2 items sh.2
  (runPairSessions cfg step ts mt.1, fk.2)

/-- The tick loop of `MarketSimulator.run`, accumulating results in
pair order. -/
def runSteps {σ : Type} (ops : RNGOps σ) (cfg : SimConfig)
    (items : List Item) (ts : ℕ → ℕ → ℕ → ℚ) :
    List ℕ → σ → List NegotiationResult × σ
  | [], st => ([], st)
  | step :: rest, st =>
    let pr := runStep ops cfg items (ts step) step st
    let tl := runSteps ops cfg items ts rest pr.2
    (pr.1 ++ tl.1, tl.2)

/-- `MarketSimulator.run` with rule-based agents: catalog construction at
`__init__` (consuming the run-level stream), then `steps` ticks.  The
oracle `ts step pair round` supplies every `time.time()` value; logging
and report writing are output-only and omitted. -/
def marketRun {σ : Type} (ops : RNGOps σ) (cfg : SimConfig)
    (ts : ℕ → ℕ → ℕ → ℚ) : List NegotiationResult :=
  let st0 := ops.init cfg.seed
  let fixed_ref :=
    if cfg.scenario_mode = "fixed" then cfg.fixed.item_reference_price
    else none
  let cat := catalogItems ops cfg.market.num_item_types
    cfg.market.item_ref_price_min cfg.market.item_ref_price_max
    fixed_ref st0
  (runSteps ops cfg cat.1 ts (List.range cfg.steps) cat.2).1

/-- The observable a session contributes to the determinism contract:
`(deal_made, deal_price, rounds_taken)`. -/
def projRes (r : NegotiationResult) : Bool × Option ℚ × ℕ :=
  (r.deal_made, r.deal_price, r.rounds_taken)

/-! ## Session invariants (proof infrastructure) -/

/-- The constraints `validate_action` imposes on the price of a valid
offer/counter by `role`. -/
structure OfferOk (S : SessionParams) (role : AgentRole) (p : ℚ) : Prop where
  ge_min : S.min_price ≤ p
  le_max : p ≤ S.max_price
  buyer_le : role = .buyer → p ≤ S.buyer.budget ∧ p ≤ S.buyer.value
  seller_ge : role = .seller → S.seller.cost ≤ p

/-- The loop invariant of `NegotiationSession.run` at the head of round
`r`: `r` turns recorded, alternation holds, and past round 0 the pending
`last_offer` is the validated price of the immediately preceding turn. -/
structure SessInv (S : SessionParams) (r : ℕ) (st : SessionState) : Prop where
  len : st.transcript.length = r
  turns : ∀ i t, st.transcript.get? i = some t →
    t.round_number = i ∧ t.agent_role = parityRole i
  lastOff : ∀ k, r = k + 1 → ∃ p, st.last_offer = some p ∧
    OfferOk S (parityRole k) p ∧
    (st.transcript.get? k).map (fun t => t.action.offer_price) =
      some (some p)
  riskOk : ∀ e ∈ st.risk_events, e.attempted_action = "accept" →
    e.violation_type ≠ some "logic"

/-- Everything the master lemma establishes about a finished session. -/
structure MasterOut (S : SessionParams) (res : NegotiationResult) : Prop where
  reason3 : res.termination_reason = .accepted ∨
    res.termination_reason = .rejected ∨ res.termination_reason = .timeout
  histLen : res.history.length = res.rounds_taken
  turns : ∀ i t, res.history.get? i = some t →
    t.round_number = i ∧ t.agent_role = parityRole i
  roundsLe : res.rounds_taken ≤ S.max_rounds
  roundsGe : 1 ≤ S.max_rounds → 1 ≤ res.rounds_taken
  accShape : res.termination_reason = .accepted → res.deal_made = true ∧
    ∃ p, res.deal_price = some p ∧ S.min_price ≤ p ∧ p ≤ S.max_price ∧
      S.seller.cost ≤ p ∧ p ≤ S.buyer.value ∧ p ≤ S.buyer.budget ∧
      2 ≤ res.rounds_taken ∧
      (res.history.get? (res.rounds_taken - 2)).map
        (fun t => t.action.offer_price) = some (some p)
  rejShape : res.termination_reason = .rejected →
    res.deal_made = false ∧ res.deal_price = none
  toShape : res.termination_reason = .timeout →
    res.deal_made = false ∧ res.deal_price = none ∧
      res.rounds_taken = S.max_rounds
  riskOk : ∀ e ∈ res.risk_events, e.attempted_action = "accept" →
    e.violation_type ≠ some "logic"

/-! ## Metrics (`src/evaluation/metrics.py`)

`statistics.mean` is the exact arithmetic mean, `statistics.stdev` the
square root of the sample variance (denominator `n - 1`); the square
root forces the real numbers, so the stdev-carrying aggregates are
noncomputable while everything else stays executable. -/

/-- `[r for r in results if r.deal_made]`. -/
def dealsOf (results : List NegotiationResult) : List NegotiationResult :=
  results.filter (fun r => r.deal_made)

/-- `[r.deal_price for r in deals if r.deal_price is not None]`. -/
def dealPrices (results : List NegotiationResult) : List ℚ :=
  (dealsOf results).filterMap (fun r => r.deal_price)

/-- `statistics.mean` on rationals. -/
def pyMean (l : List ℚ) : ℚ := l.sum / l.length

/-- The sample variance `statistics.stdev` takes the square root of:
`sum((x - mean)^2) / (n - 1)`. -/
def sampleVar (l : List ℚ) : ℚ :=
  (l.map (fun x => (x - pyMean l) ^ 2)).sum / ((l.length : ℚ) - 1)

/-- `statistics.stdev`. -/
noncomputable def pyStdev (l : List ℚ) : ℝ := Real.sqrt (sampleVar l)

/-- The population variance (denominator `n`), for comparison: this is
what `statistics.pstdev` would take the square root of. -/
def popVar (l : List ℚ) : ℚ :=
  (l.map (fun x => (x - pyMean l) ^ 2)).sum / (l.length : ℚ)

/-- The population standard deviation (`statistics.pstdev`). -/
noncomputable def popStdev (l : List ℚ) : ℝ := Real.sqrt (popVar l)

/-- `statistics.median` (sorted middle, or mean of the two middles). -/
def pyMedian (l : List ℚ) : ℚ :=
  let s := l.mergeSort (fun a b => decide (a ≤ b))
  if l.length % 2 = 1 then s.getD (l.length / 2) 0
  else (s.getD (l.length / 2 - 1) 0 + s.getD (l.length / 2) 0) / 2

/-- Round-half-to-even on the reals (Python `round` on the stdev value). -/
noncomputable def roundHalfEvenIntR (x : ℝ) : ℤ :=
  let f := ⌊x⌋
  if x - f < 1/2 then f
  else if 1/2 < x - f then f + 1
  else if f % 2 = 0 then f else f + 1

/-- Python's `round(x, nd)` on the reals. -/
noncomputable def pyRoundR (nd : ℕ) (x : ℝ) : ℝ :=
  (roundHalfEvenIntR (x * (10 : ℝ) ^ nd) : ℝ) / (10 : ℝ) ^ nd

/-- `MarketTickStats` (`src/core/types.py`). -/
structure MarketTickStats where
  tick : ℕ
  num_sessions : ℕ
  deals_made : ℕ
  fail_rate : ℚ
  mean_price : ℚ
  price_std : ℝ
  liquidity : ℚ
  buyer_surplus_mean : ℚ
  seller_surplus_mean : ℚ

/-- `compute_tick_stats` (`src/evaluation/metrics.py`). -/
noncomputable def compute_tick_stats (tick : ℕ)
    (results : List NegotiationResult) : MarketTickStats :=
  if results.length = 0 then ⟨tick, 0, 0, 0, 0, 0, 0, 0, 0⟩
  else
    let deals := dealsOf results
    let prices := dealPrices results
    ⟨tick, results.length, deals.length,
      pyRound 4 (((results.length : ℚ) - deals.length) / results.length),
      if prices.length ≠ 0 then pyRound 2 (pyMean prices) else 0,
      if 1 < prices.length then pyRoundR 2 (pyStdev prices) else 0,
      pyRound 4 ((deals.length : ℚ) / results.length),
      if deals.length ≠ 0 then
        pyRound 2 (pyMean (deals.map (fun r => r.buyer_surplus))) else 0,
      if deals.length ≠ 0 then
        pyRound 2 (pyMean (deals.map (fun r => r.seller_surplus))) else 0⟩

/-- The flat dict `compute_metrics` returns, as a structure. -/
structure RunMetrics where
  total_negotiations : ℕ
  deals_made : ℕ
  deal_success_rate : ℚ
  avg_price : ℚ
  median_price : ℚ
  price_std : ℝ
  buyer_surplus_mean : ℚ
  seller_surplus_mean : ℚ
  welfare_mean : ℚ
  avg_rounds_to_close : ℚ
  avg_rounds_all : ℚ
  budget_violation_attempts : ℕ
  cost_violation_attempts : ℕ
  deadlock_rate : ℚ
  timeouts : ℕ
  total_risk_events : ℕ

/-- `compute_metrics` (`src/evaluation/metrics.py`). -/
noncomputable def compute_metrics (results : List NegotiationResult) :
    RunMetrics :=
  if results.length = 0 then
    ⟨0, 0, 0, 0, 0, 0, 0, 0, 0, 0, 0, 0, 0, 0, 0, 0⟩
  else
    let total := results.length
    let deals := dealsOf results
    let deal_prices := dealPrices results
    let buyer_surpluses := deals.map (fun r => r.buyer_surplus)
    let seller_surpluses := deals.map (fun r => r.seller_surplus)
    let deal_rounds := deals.map (fun r => (r.rounds_taken : ℚ))
    let all_rounds := results.map (fun r => (r.rounds_taken : ℚ))
    let all_risk := results.flatMap (fun r => r.risk_events)
    let timeouts := (results.filter
      (fun r => r.termination_reason = .timeout)).length
    ⟨total, deals.length,
      pyRound 4 ((deals.length : ℚ) / total),
      if deal_prices.length ≠ 0 then pyRound 2 (pyMean deal_prices) else 0,
      if deal_prices.length ≠ 0 then pyRound 2 (pyMedian deal_prices) else 0,
      if 1 < deal_prices.length then pyRoundR 2 (pyStdev deal_prices) else 0,
      if buyer_surpluses.length ≠ 0 then
        pyRound 2 (pyMean buyer_surpluses) else 0,
      if seller_surpluses.length ≠ 0 then
        pyRound 2 (pyMean seller_surpluses) else 0,
      if buyer_surpluses.length ≠ 0 then
        pyRound 2 (pyMean (List.zipWith (· + ·) buyer_surpluses
          seller_surpluses)) else 0,
      if deal_rounds.length ≠ 0 then pyRound 2 (pyMean deal_rounds) else 0,
      if all_rounds.length ≠ 0 then pyRound 2 (pyMean all_rounds) else 0,
      (all_risk.filter (fun e => e.violation_type = some "budget")).length,
      (all_risk.filter (fun e => e.violation_type = some "cost")).length,
      pyRound 4 ((timeouts : ℚ) / total),
      timeouts,
      all_risk.length⟩

/-! ## Concrete fixtures used by witnesses and counterexamples -/

/-- A trivial deterministic RNG implementation (lower-bound draws). -/
def unitOps : RNGOps Unit :=
  ⟨fun _ => (), fun _ => (0, ()), fun _ a _b => (a, ()),
    fun _ a _b => (a, ()), fun _ _ => (0, ()),
    fun _ n => (List.range n, ())⟩

/-- Accepted-run fixture: buyer offers 10, seller accepts. -/
def sessAccept : SessionParams :=
  ⟨fun _ => ⟨.offer, some 10, "", ""⟩, fun _ => ⟨.accept, none, "", ""⟩,
    ⟨"i", "n", 100⟩, ⟨"b", 15, 20, 5⟩, ⟨"s", 5, 15/100, 5⟩, 4, 1, 500, 0,
    fun _ => 0⟩

/-- Rejected-run fixture: buyer offers 10, seller rejects. -/
def sessReject : SessionParams :=
  ⟨fun _ => ⟨.offer, some 10, "", ""⟩, fun _ => ⟨.reject, none, "", ""⟩,
    ⟨"i", "n", 100⟩, ⟨"b", 15, 20, 5⟩, ⟨"s", 5, 15/100, 5⟩, 4, 1, 500, 0,
    fun _ => 0⟩

/-- The spec's infeasible scenario: buyer value 50 and budget 50 against
seller cost 100, rule-based agents on both sides. -/
def sessInfeasible : SessionParams :=
  ⟨ruleDecide, ruleDecide, ⟨"i", "n", 100⟩, ⟨"b", 50, 50, 5⟩,
    ⟨"s", 100, 2/10, 5⟩, 10, 1, 500, 0, fun _ => 0⟩

/-- A run in which the seller attempts to accept an offer below cost,
producing one "cost" risk event on an attempted accept. -/
def sessRiskAccept : SessionParams :=
  ⟨fun _ => ⟨.offer, some 30, "", ""⟩, fun _ => ⟨.accept, none, "", ""⟩,
    ⟨"i", "n", 100⟩, ⟨"b", 40, 40, 5⟩, ⟨"s", 35, 15/100, 5⟩, 4, 1, 500, 0,
    fun _ => 0⟩

/-- The default judge bounds. -/
def judgeW : ActionJudge := ⟨1, 500⟩

/-- A buyer with value 10 (fallback opening offer 5). -/
def buyerW : BuyerState := ⟨"b", 10, 20, 5⟩

/-- A seller with cost 8 (fallback opening offer 12). -/
def sellerW : SellerState := ⟨"s", 8, 15/100, 5⟩

/-- All-fixed scenario configuration with a 4-decimal target margin. -/
def fixedW : FixedScenarioConfig :=
  ⟨some (.scalar 100), some (.scalar 150), some (.scalar 5),
    some (.scalar 80), some (.scalar (1234/10000)), some (.scalar 5),
    some (.scalar 100), "cycle"⟩

/-- The default `MarketConfig` values (`src/core/config.py`). -/
def marketCfgW : MarketConfig :=
  ⟨50, 150, 30, 120, 80, 200, 5/100, 30/100, 3, 10, 3, 10, 40, 130, 5⟩

/-- An integer-typed distribution parameter source. -/
def psIntW : ParameterSource := ⟨none, 3, 10, true, "cycle", 0⟩

/-- A float-typed distribution parameter source. -/
def psFloatW : ParameterSource := ⟨none, 50, 150, false, "cycle", 0⟩

/-- A deal result with the given price (for metric fixtures). -/
def resW (p : ℚ) : NegotiationResult :=
  ⟨dummyItem, "b", "s", true, some p, .accepted, 2, [], 0, 0, 0, 0, [], 0⟩

/-- Three deals at prices 0, 1, 2: sample variance 1, population
variance 2/3. -/
def rsW : List NegotiationResult := [resW 0, resW 1, resW 2]

/-- A buyer whose budget (20) is below an attempted offer of 30. -/
def buyerPoor : BuyerState := ⟨"b", 25, 20, 5⟩

/-- The first risk event of the `sessRiskAccept` run. -/
def riskHeadW : RiskEvent :=
  (sessionRun sessRiskAccept).risk_events.headD ⟨0, "", none, "", "", none, 0⟩

/-! # Proofs -/

/-! ## Small helper lemmas -/

theorem buildResult_fields (S : SessionParams) (st : SessionState)
    (dm : Bool) (dp : Option ℚ) (rds : ℕ) (rsn : TerminationReason)
    (bs ss : ℚ) :
    (buildResult S st dm dp rds rsn bs ss).termination_reason = rsn ∧
    (buildResult S st dm dp rds rsn bs ss).deal_made = dm ∧
    (buildResult S st dm dp rds rsn bs ss).deal_price = dp ∧
    (buildResult S st dm dp rds rsn bs ss).rounds_taken = rds ∧
    (buildResult S st dm dp rds rsn bs ss).history = st.transcript ∧
    (buildResult S st dm dp rds rsn bs ss).risk_events = st.risk_events :=
  ⟨rfl, rfl, rfl, rfl, rfl, rfl⟩

theorem settle_fields (S : SessionParams) (st : SessionState)
    (dp : Option ℚ) (rds : ℕ) :
    (settle S st dp rds).termination_reason = .accepted ∧
    (settle S st dp rds).deal_made = true ∧
    (settle S st dp rds).deal_price = dp ∧
    (settle S st dp rds).rounds_taken = rds ∧
    (settle S st dp rds).history = st.transcript ∧
    (settle S st dp rds).risk_events = st.risk_events :=
  ⟨rfl, rfl, rfl, rfl, rfl, rfl⟩

theorem actionValue_eq_accept (a : ActionType) :
    a.value = "accept" ↔ a = .accept := by
  cases a <;> simp [ActionType.value]

theorem parityRole_cases (r : ℕ) :
    parityRole r = .buyer ∧ r % 2 = 0 ∨ parityRole r = .seller ∧ r % 2 = 1 := by
  by_cases h : r % 2 = 0
  · exact Or.inl ⟨by simp [parityRole, h], h⟩
  · exact Or.inr ⟨by simp [parityRole, h], by omega⟩

theorem parityRole_succ_flip (k : ℕ) :
    (parityRole k = .buyer → parityRole (k + 1) = .seller) ∧
    (parityRole k = .seller → parityRole (k + 1) = .buyer) := by
  constructor <;> intro h <;> rcases parityRole_cases k with ⟨h1, h2⟩ | ⟨h1, h2⟩ <;>
    simp_all [parityRole] <;> omega

theorem correct_first_round_action (j : ActionJudge) (a : NegotiationAction)
    (role : AgentRole) (buyer : BuyerState) (seller : SellerState) :
    (j.correct_first_round a role buyer seller).action = .offer := by
  obtain ⟨act, p, m, rt⟩ := a
  cases act <;> simp [ActionJudge.correct_first_round]

theorem correctedAt_action_round0 (j : ActionJudge) (a : NegotiationAction)
    (role : AgentRole) (buyer : BuyerState) (seller : SellerState) :
    (correctedAt j role a buyer seller 0).action = .offer := by
  rw [correctedAt, if_pos rfl]
  exact correct_first_round_action j a role buyer seller

theorem correctedAt_pos (j : ActionJudge) (a : NegotiationAction)
    (role : AgentRole) (buyer : BuyerState) (seller : SellerState)
    (r : ℕ) (hr : r ≠ 0) : correctedAt j role a buyer seller r = a := by
  rw [correctedAt, if_neg hr]

/-! ## Enforce characterization -/

theorem enforce_cases (j : ActionJudge) (role : AgentRole)
    (a : NegotiationAction) (buyer : BuyerState) (seller : SellerState)
    (lo : Option ℚ) (item : Item) (r tstep : ℕ) :
    ((validate_action role (correctedAt j role a buyer seller r) buyer
        seller lo item r j.min_price j.max_price).valid = true ∧
      j.enforce role a buyer seller lo item r tstep =
        (correctedAt j role a buyer seller r, none)) ∨
    ((validate_action role (correctedAt j role a buyer seller r) buyer
        seller lo item r j.min_price j.max_price).valid = false ∧
      j.enforce role a buyer seller lo item r tstep =
        (⟨.reject, none, "I cannot continue this negotiation.",
            "Auto-corrected: " ++ (validate_action role
              (correctedAt j role a buyer seller r) buyer seller lo item r
              j.min_price j.max_price).reason⟩,
          some ⟨r, role.value,
            (validate_action role (correctedAt j role a buyer seller r)
              buyer seller lo item r j.min_price j.max_price).violation_type,
            (validate_action role (correctedAt j role a buyer seller r)
              buyer seller lo item r j.min_price j.max_price).reason,
            (correctedAt j role a buyer seller r).action.value,
            (correctedAt j role a buyer seller r).offer_price, tstep⟩)) := by
  by_cases h : (validate_action role (correctedAt j role a buyer seller r)
      buyer seller lo item r j.min_price j.max_price).valid = true
  · left
    exact ⟨h, by simp only [ActionJudge.enforce, h, if_true]⟩
  · right
    refine ⟨by simpa using h, ?_⟩
    simp only [ActionJudge.enforce]
    rw [if_neg h]

/-! ## Validation elimination lemmas -/

theorem validate_offer_ok (role : AgentRole) (a : NegotiationAction)
    (buyer : BuyerState) (seller : SellerState) (lo : Option ℚ)
    (item : Item) (r : ℕ) (mn mx : ℚ)
    (hv : (validate_action role a buyer seller lo item r mn mx).valid = true)
    (ha : a.action = .offer ∨ a.action = .counter) :
    ∃ p, a.offer_price = some p ∧ mn ≤ p ∧ p ≤ mx ∧
      (role = .buyer → p ≤ buyer.budget ∧ p ≤ buyer.value) ∧
      (role = .seller → seller.cost ≤ p) := by
  obtain ⟨act, price, m, rt⟩ := a
  simp only at ha
  cases price with
  | none =>
    rcases ha with h | h <;> subst h <;> simp [validate_action] at hv
  | some p =>
    refine ⟨p, rfl, ?_⟩
    rcases ha with h | h
    all_goals
      subst h
      simp only [validate_action] at hv
      split_ifs at hv with h1 h2 h3 h4
      push_neg at h1 h2 h3 h4
      exact ⟨h1.1, h1.2, fun hr => ⟨h2 hr, h3 hr⟩, fun hr => h4 hr⟩

theorem validate_accept_ok (role : AgentRole) (a : NegotiationAction)
    (buyer : BuyerState) (seller : SellerState) (lo : Option ℚ)
    (item : Item) (r : ℕ) (mn mx : ℚ)
    (hv : (validate_action role a buyer seller lo item r mn mx).valid = true)
    (ha : a.action = .accept) :
    ∃ p, lo = some p ∧ (role = .buyer → p ≤ buyer.budget ∧ p ≤ buyer.value) ∧
      (role = .seller → seller.cost ≤ p) := by
  obtain ⟨act, price, m, rt⟩ := a
  simp only at ha
  subst ha
  cases lo with
  | none => simp [validate_action] at hv
  | some p =>
    refine ⟨p, rfl, ?_⟩
    simp only [validate_action] at hv
    split_ifs at hv with h1 h2 h3
    push_neg at h1 h2 h3
    exact ⟨fun hr => ⟨h1 hr, h2 hr⟩, fun hr => h3 hr⟩

theorem validate_accept_fail (role : AgentRole) (a : NegotiationAction)
    (buyer : BuyerState) (seller : SellerState) (p : ℚ)
    (item : Item) (r : ℕ) (mn mx : ℚ)
    (hv : (validate_action role a buyer seller (some p) item r mn mx).valid
      = false)
    (ha : a.action = .accept) :
    (validate_action role a buyer seller (some p) item r mn
      mx).violation_type = some "budget" ∨
    (validate_action role a buyer seller (some p) item r mn
      mx).violation_type = some "cost" := by
  obtain ⟨act, price, m, rt⟩ := a
  simp only at ha
  subst ha
  simp only [validate_action] at hv ⊢
  split_ifs at hv ⊢ with h1 h2 h3
  · simp
  · simp
  · simp

/-! ## The session master lemma -/

theorem sessionStep_spec (S : SessionParams) (r : ℕ) (st : SessionState)
    (A : NegotiationAction) (ev : Option RiskEvent)
    (hE : ActionJudge.enforce ⟨S.min_price, S.max_price⟩ (parityRole r)
      (activeDecide S r (mkCtx S r st.transcript st.last_offer)) S.buyer
      S.seller st.last_offer S.item r S.time_step = (A, ev)) :
    sessionStep S r st =
      (A, ⟨st.transcript ++ [⟨r, parityRole r, A, S.ts r⟩],
        st.risk_events ++ ev.toList, st.last_offer⟩) := by
  simp only [sessionStep, hE]

theorem turns_extend (tr : List NegotiationTurn) (r : ℕ)
    (turn : NegotiationTurn) (hlen : tr.length = r)
    (hold : ∀ i t, tr.get? i = some t →
      t.round_number = i ∧ t.agent_role = parityRole i)
    (hrn : turn.round_number = r) (hrl : turn.agent_role = parityRole r) :
    ∀ i t, (tr ++ [turn]).get? i = some t →
      t.round_number = i ∧ t.agent_role = parityRole i := by
  intro i t ht
  rcases lt_trichotomy i tr.length with hi | hi | hi
  · rw [List.get?_append hi] at ht
    exact hold i t ht
  · rw [hi, List.get?_concat_length] at ht
    obtain rfl := Option.some.inj ht
    rw [hrn, hrl, hi, hlen]
    exact ⟨rfl, rfl⟩
  · rw [List.get?_eq_none.2 (by simp; omega)] at ht
    cases ht

theorem sessionRunAux_master (S : SessionParams) :
    ∀ fuel r st, SessInv S r st → fuel + r = S.max_rounds →
      MasterOut S (sessionRunAux S fuel r st) := by
  intro fuel
  induction fuel with
  | zero =>
    intro r st hInv hfr
    have hr : r = S.max_rounds := by omega
    simp only [sessionRunAux]
    refine ⟨Or.inr (Or.inr rfl), ?_, ?_, le_refl _, fun h => h, ?_, ?_,
      fun _ => ⟨rfl, rfl, rfl⟩, hInv.riskOk⟩
    · show st.transcript.length = S.max_rounds
      rw [hInv.len]; exact hr
    · exact fun i t ht => hInv.turns i t ht
    · intro h; simp [buildResult] at h
    · intro h; simp [buildResult] at h
  | succ fuel ih =>
    intro r st hInv hfr
    set j : ActionJudge := ⟨S.min_price, S.max_price⟩ with hj
    set a0 := activeDecide S r (mkCtx S r st.transcript st.last_offer)
      with ha0
    have hdis := enforce_cases j (parityRole r) a0 S.buyer S.seller
      st.last_offer S.item r S.time_step
    set A := correctedAt j (parityRole r) a0 S.buyer S.seller r with hA
    set v := validate_action (parityRole r) A S.buyer S.seller st.last_offer
      S.item r j.min_price j.max_price with hv
    have hr0accept : A.action = .accept → r ≠ 0 := by
      intro hacc h0
      have h2 : A.action = .offer := by
        rw [hA, h0]
        exact correctedAt_action_round0 j a0 (parityRole 0) S.buyer S.seller
      rw [hacc] at h2
      simp at h2
    rcases hdis with ⟨hval, hE⟩ | ⟨hval, hE⟩
    · -- the enforced action validates: it is the (corrected) agent action
      have hstep := sessionStep_spec S r st A none hE
      simp only [sessionRunAux, hstep]
      cases hact : A.action with
      | accept =>
        rw [if_pos rfl]
        obtain ⟨k, hk⟩ : ∃ k, r = k + 1 := by
          rcases Nat.eq_zero_or_pos r with h0 | h0
          · exact absurd h0 (hr0accept hact)
          · exact ⟨r - 1, by omega⟩
        obtain ⟨p, hlo, hok, htr⟩ := hInv.lastOff k hk
        obtain ⟨q, hq, hqb, hqs⟩ := validate_accept_ok (parityRole r) A
          S.buyer S.seller st.last_offer S.item r j.min_price j.max_price
          hval hact
        obtain rfl : p = q := by
          rw [hlo] at hq
          exact Option.some.inj hq
        refine ⟨Or.inl rfl, ?_, ?_, ?_, ?_, ?_, ?_, ?_, ?_⟩
        · show (st.transcript ++ [(⟨r, parityRole r, A, S.ts r⟩ : NegotiationTurn)]).length = r + 1
          simp [hInv.len]
        · exact turns_extend st.transcript r _ hInv.len hInv.turns rfl rfl
        · show r + 1 ≤ S.max_rounds
          omega
        · intro _
          show 1 ≤ r + 1
          omega
        · intro _
          refine ⟨rfl, p, hlo, hok.ge_min, hok.le_max, ?_⟩
          have h2 : 2 ≤ r + 1 := by omega
          have hhist : ((st.transcript ++
              [(⟨r, parityRole r, A, S.ts r⟩ : NegotiationTurn)]).get?
              (r + 1 - 2)).map
              (fun t : NegotiationTurn => t.action.offer_price) =
              some (some p) := by
            have hk2 : r + 1 - 2 = k := by omega
            rw [hk2, List.get?_append (by rw [hInv.len]; omega)]
            exact htr
          rcases parityRole_cases k with ⟨hb, _⟩ | ⟨hs, _⟩
          · have hsucc : parityRole r = .seller := by
              rw [hk]; exact (parityRole_succ_flip k).1 hb
            have h1 := hok.buyer_le hb
            exact ⟨hqs hsucc, h1.2, h1.1, h2, hhist⟩
          · have hsucc : parityRole r = .buyer := by
              rw [hk]; exact (parityRole_succ_flip k).2 hs
            have h1 := hok.seller_ge hs
            have hq2 := hqb hsucc
            exact ⟨h1, hq2.2, hq2.1, h2, hhist⟩
        · intro h; simp [settle, buildResult] at h
        · intro h; simp [settle, buildResult] at h
        · intro e he hacc2
          have he2 : e ∈ st.risk_events := by simpa using he
          exact hInv.riskOk e he2 hacc2
      | reject =>
        rw [if_neg (by simp), if_pos rfl]
        refine ⟨Or.inr (Or.inl rfl), ?_, ?_, ?_, ?_, ?_,
          fun _ => ⟨rfl, rfl⟩, ?_, ?_⟩
        · show (st.transcript ++ [(⟨r, parityRole r, A, S.ts r⟩ : NegotiationTurn)]).length = r + 1
          simp [hInv.len]
        · exact turns_extend st.transcript r _ hInv.len hInv.turns rfl rfl
        · show r + 1 ≤ S.max_rounds
          omega
        · intro _
          show 1 ≤ r + 1
          omega
        · intro h; simp [buildResult] at h
        · intro h; simp [buildResult] at h
        · intro e he hacc2
          have he2 : e ∈ st.risk_events := by simpa using he
          exact hInv.riskOk e he2 hacc2
      | offer =>
        rw [if_neg (by simp), if_neg (by simp)]
        obtain ⟨p, hp, hmn, hmx, hbd, hsl⟩ := validate_offer_ok
          (parityRole r) A S.buyer S.seller st.last_offer S.item r
          j.min_price j.max_price hval (Or.inl hact)
        apply ih (r + 1) _ ?_ (by omega)
        refine ⟨?_, ?_, ?_, ?_⟩
        · show (st.transcript ++ [(⟨r, parityRole r, A, S.ts r⟩ : NegotiationTurn)]).length = r + 1
          simp [hInv.len]
        · exact turns_extend st.transcript r _ hInv.len hInv.turns rfl rfl
        · intro k hk
          obtain rfl : r = k := by omega
          refine ⟨p, ?_, ⟨hmn, hmx, hbd, hsl⟩, ?_⟩
          · show updLast st.last_offer A.offer_price = some p
            rw [hp]; rfl
          · show ((st.transcript ++
              [(⟨r, parityRole r, A, S.ts r⟩ : NegotiationTurn)]).get?
              r).map (fun t : NegotiationTurn => t.action.offer_price) =
              some (some p)
            rw [show r = st.transcript.length from hInv.len.symm]
            rw [List.get?_concat_length]
            simp [hp]
        · intro e he hacc2
          have he2 : e ∈ st.risk_events := by simpa using he
          exact hInv.riskOk e he2 hacc2
      | counter =>
        rw [if_neg (by simp), if_neg (by simp)]
        obtain ⟨p, hp, hmn, hmx, hbd, hsl⟩ := validate_offer_ok
          (parityRole r) A S.buyer S.seller st.last_offer S.item r
          j.min_price j.max_price hval (Or.inr hact)
        apply ih (r + 1) _ ?_ (by omega)
        refine ⟨?_, ?_, ?_, ?_⟩
        · show (st.transcript ++ [(⟨r, parityRole r, A, S.ts r⟩ : NegotiationTurn)]).length = r + 1
          simp [hInv.len]
        · exact turns_extend st.transcript r _ hInv.len hInv.turns rfl rfl
        · intro k hk
          obtain rfl : r = k := by omega
          refine ⟨p, ?_, ⟨hmn, hmx, hbd, hsl⟩, ?_⟩
          · show updLast st.last_offer A.offer_price = some p
            rw [hp]; rfl
          · show ((st.transcript ++
              [(⟨r, parityRole r, A, S.ts r⟩ : NegotiationTurn)]).get?
              r).map (fun t : NegotiationTurn => t.action.offer_price) =
              some (some p)
            rw [show r = st.transcript.length from hInv.len.symm]
            rw [List.get?_concat_length]
            simp [hp]
        · intro e he hacc2
          have he2 : e ∈ st.risk_events := by simpa using he
          exact hInv.riskOk e he2 hacc2
    · -- validation failed: the action is replaced by REJECT + risk event
      have hstep := sessionStep_spec S r st _ _ hE
      simp only [sessionRunAux, hstep]
      show MasterOut S (buildResult S
        ⟨st.transcript ++ [(⟨r, parityRole r,
            ⟨.reject, none, "I cannot continue this negotiation.",
              "Auto-corrected: " ++ v.reason⟩, S.ts r⟩ : NegotiationTurn)],
          st.risk_events ++ [⟨r, (parityRole r).value, v.violation_type,
            v.reason, A.action.value, A.offer_price, S.time_step⟩],
          st.last_offer⟩
        false none (r + 1) .rejected 0 0)
      refine ⟨Or.inr (Or.inl rfl), ?_, ?_, ?_, ?_, ?_,
        fun _ => ⟨rfl, rfl⟩, ?_, ?_⟩
      · show (st.transcript ++ [_]).length = r + 1
        simp [hInv.len]
      · exact turns_extend st.transcript r _ hInv.len hInv.turns rfl rfl
      · show r + 1 ≤ S.max_rounds
        omega
      · intro _
        show 1 ≤ r + 1
        omega
      · intro h; simp [buildResult] at h
      · intro h; simp [buildResult] at h
      · intro e he hacc2
        rcases List.mem_append.1 he with he2 | he2
        · exact hInv.riskOk e he2 hacc2
        · obtain rfl : e = ⟨r, (parityRole r).value, v.violation_type,
              v.reason, A.action.value, A.offer_price, S.time_step⟩ := by
            simpa using he2
          have hAacc : A.action = .accept :=
            (actionValue_eq_accept A.action).1 hacc2
          have hrne := hr0accept hAacc
          obtain ⟨k, hk⟩ : ∃ k, r = k + 1 := ⟨r - 1, by omega⟩
          obtain ⟨p, hlo, hok, htr⟩ := hInv.lastOff k hk
          have hfail := validate_accept_fail (parityRole r) A S.buyer
            S.seller p S.item r j.min_price j.max_price
            (by rw [← hlo]; exact hval) hAacc
          show v.violation_type ≠ some "logic"
          have hveq : v = validate_action (parityRole r) A S.buyer S.seller
              (some p) S.item r j.min_price j.max_price := by
            rw [hv, hlo]
          rw [hveq]
          rcases hfail with h | h <;> rw [h] <;> simp

theorem sessionRun_master (S : SessionParams) : MasterOut S (sessionRun S) := by
  apply sessionRunAux_master S S.max_rounds 0 ⟨[], [], none⟩ ?_ (by omega)
  refine ⟨rfl, ?_, ?_, ?_⟩
  · intro i t ht; simp at ht
  · intro k hk; exact absurd hk (by omega)
  · intro e he; simp at he

/-! ## Timestamp invariance: determinism of the projected outcome -/

theorem sessionRunAux_ts (S : SessionParams) (t2 : ℕ → ℚ)
    (hdec : ∀ r h1 h2 lo, activeDecide S r (mkCtx S r h1 lo) =
      activeDecide S r (mkCtx S r h2 lo)) :
    ∀ fuel r st1 st2, st1.last_offer = st2.last_offer →
      projRes (sessionRunAux S fuel r st1) =
        projRes (sessionRunAux { S with ts := t2 } fuel r st2) := by
  intro fuel
  induction fuel with
  | zero =>
    intro r st1 st2 hlo
    rfl
  | succ fuel ih =>
    intro r st1 st2 hlo
    obtain ⟨A, ev, hE1⟩ : ∃ A ev,
        ActionJudge.enforce ⟨S.min_price, S.max_price⟩ (parityRole r)
          (activeDecide S r (mkCtx S r st1.transcript st1.last_offer))
          S.buyer S.seller st1.last_offer S.item r S.time_step = (A, ev) :=
      ⟨_, _, rfl⟩
    have hE2 : ActionJudge.enforce
        ⟨SessionParams.min_price { S with ts := t2 },
          SessionParams.max_price { S with ts := t2 }⟩ (parityRole r)
        (activeDecide { S with ts := t2 } r
          (mkCtx { S with ts := t2 } r st2.transcript st2.last_offer))
        (SessionParams.buyer { S with ts := t2 })
        (SessionParams.seller { S with ts := t2 }) st2.last_offer
        (SessionParams.item { S with ts := t2 }) r
        (SessionParams.time_step { S with ts := t2 }) = (A, ev) := by
      show ActionJudge.enforce ⟨S.min_price, S.max_price⟩ (parityRole r)
        (activeDecide S r (mkCtx S r st2.transcript st2.last_offer))
        S.buyer S.seller st2.last_offer S.item r S.time_step = (A, ev)
      rw [← hlo, hdec r st2.transcript st1.transcript st1.last_offer]
      exact hE1
    have h1 := sessionStep_spec S r st1 A ev hE1
    have h2 := sessionStep_spec { S with ts := t2 } r st2 A ev hE2
    simp only [sessionRunAux, h1, h2]
    cases hact : A.action with
    | accept =>
      show (true, st1.last_offer, r + 1) = (true, st2.last_offer, r + 1)
      rw [hlo]
    | reject => rfl
    | offer =>
      apply ih
      show updLast st1.last_offer A.offer_price =
        updLast st2.last_offer A.offer_price
      rw [hlo]
    | counter =>
      apply ih
      show updLast st1.last_offer A.offer_price =
        updLast st2.last_offer A.offer_price
      rw [hlo]

theorem ruleDecide_hist (S : SessionParams)
    (hb : S.buyer_decide = ruleDecide) (hs : S.seller_decide = ruleDecide) :
    ∀ r h1 h2 lo, activeDecide S r (mkCtx S r h1 lo) =
      activeDecide S r (mkCtx S r h2 lo) := by
  intro r h1 h2 lo
  by_cases hr : r % 2 = 0
  · simp only [activeDecide, mkCtx, if_pos hr, hb]
    rfl
  · simp only [activeDecide, mkCtx, if_neg hr, hs]
    rfl

theorem sessionRun_ts (S : SessionParams) (t2 : ℕ → ℚ)
    (hb : S.buyer_decide = ruleDecide) (hs : S.seller_decide = ruleDecide) :
    projRes (sessionRun S) = projRes (sessionRun { S with ts := t2 }) :=
  sessionRunAux_ts S t2 (ruleDecide_hist S hb hs) S.max_rounds 0
    ⟨[], [], none⟩ ⟨[], [], none⟩ rfl

theorem runPairSessions_ts (cfg : SimConfig) (step : ℕ)
    (ts1 ts2 : ℕ → ℕ → ℚ)
    (pairs : List (BuyerState × SellerState × Item)) :
    (runPairSessions cfg step ts1 pairs).map projRes =
      (runPairSessions cfg step ts2 pairs).map projRes := by
  simp only [runPairSessions, List.map_map]
  apply List.map_congr_left
  intro pe _
  exact sessionRun_ts
    (mkSessParams cfg step pe.2.1 pe.2.2.1 pe.2.2.2 (ts1 pe.1))
    (ts2 pe.1) rfl rfl

theorem runStep_ts {σ : Type} (ops : RNGOps σ) (cfg : SimConfig)
    (items : List Item) (ts1 ts2 : ℕ → ℕ → ℚ) (step : ℕ) (st : σ) :
    (runStep ops cfg items ts1 step st).1.map projRes =
      (runStep ops cfg items ts2 step st).1.map projRes ∧
    (runStep ops cfg items ts1 step st).2 =
      (runStep ops cfg items ts2 step st).2 := by
  constructor
  · simp only [runStep]
    apply runPairSessions_ts
  · rfl

theorem runSteps_ts {σ : Type} (ops : RNGOps σ) (cfg : SimConfig)
    (items : List Item) (ts1 ts2 : ℕ → ℕ → ℕ → ℚ) :
    ∀ l st, (runSteps ops cfg items ts1 l st).1.map projRes =
      (runSteps ops cfg items ts2 l st).1.map projRes ∧
    (runSteps ops cfg items ts1 l st).2 =
      (runSteps ops cfg items ts2 l st).2 := by
  intro l
  induction l with
  | nil => exact fun st => ⟨rfl, rfl⟩
  | cons step rest ih =>
    intro st
    have hstep := runStep_ts ops cfg items (ts1 step) (ts2 step) step st
    constructor
    · show ((runStep ops cfg items (ts1 step) step st).1 ++
        (runSteps ops cfg items ts1 rest
          (runStep ops cfg items (ts1 step) step st).2).1).map projRes =
        ((runStep ops cfg items (ts2 step) step st).1 ++
        (runSteps ops cfg items ts2 rest
          (runStep ops cfg items (ts2 step) step st).2).1).map projRes
      rw [List.map_append, List.map_append, hstep.1, hstep.2,
        (ih ((runStep ops cfg items (ts2 step) step st).2)).1]
    · show (runSteps ops cfg items ts1 rest
          (runStep ops cfg items (ts1 step) step st).2).2 = _
      rw [hstep.2]
      exact (ih ((runStep ops cfg items (ts2 step) step st).2)).2

theorem parityRole_succ_ne (k : ℕ) : parityRole k ≠ parityRole (k + 1) := by
  rcases parityRole_cases k with ⟨hb, _⟩ | ⟨hs, _⟩
  · rw [hb, (parityRole_succ_flip k).1 hb]; simp
  · rw [hs, (parityRole_succ_flip k).2 hs]; simp

/-! ## Claim theorems -/

/-- C1: for every seed and identical configuration (rule-based decision
agents on both sides), two executions of `MarketSimulator.run` — differing
only in the wall-clock values `time.time()` returns — produce identical
sequences of `(deal_made, deal_price, rounds_taken)` per session, in pair
order.  The RNG is an arbitrary deterministic implementation `ops`, so
the run is a pure function of `(ops, cfg)`; the two sides use the same
seed and configuration `cfg` but unrelated timestamp oracles. -/
theorem marketRun_deterministic {σ : Type} (ops : RNGOps σ)
    (cfg : SimConfig) (ts1 ts2 : ℕ → ℕ → ℕ → ℚ) :
    (marketRun ops cfg ts1).map projRes =
      (marketRun ops cfg ts2).map projRes := by
  simp only [marketRun]
  exact (runSteps_ts ops cfg _ ts1 ts2 (List.range cfg.steps) _).1

/-- C2: every `ACCEPTED` session result has a deal price between the
seller's cost and `min(buyer.value, buyer.budget)`. -/
theorem accepted_price_bounds (S : SessionParams)
    (h : (sessionRun S).termination_reason = .accepted) :
    ∃ p, (sessionRun S).deal_price = some p ∧
      S.seller.cost ≤ p ∧ p ≤ min S.buyer.value S.buyer.budget := by
  obtain ⟨_, p, hdp, _, _, hc, hv, hb, _, _⟩ :=
    (sessionRun_master S).accShape h
  exact ⟨p, hdp, hc, le_min hv hb⟩

unseal Rat.add Rat.mul Rat.inv Rat.sub Rat.ofScientific in
theorem accepted_price_bounds_witness :
    ∃ p, (sessionRun sessAccept).deal_price = some p ∧
      sessAccept.seller.cost ≤ p ∧
      p ≤ min sessAccept.buyer.value sessAccept.buyer.budget :=
  accepted_price_bounds sessAccept (by decide)

/-- C3: an `ACCEPT` that survives validation terminates the session as
`ACCEPTED` at the pending `last_offer` — the price carried by the turn
immediately before the accepting turn, which belongs to the opposite
role (never the acceptor's own prior offer) — and a `REJECT` terminates
it as `REJECTED` with no deal and no deal price. -/
theorem accept_reject_settlement (S : SessionParams) :
    ((sessionRun S).termination_reason = .accepted →
      2 ≤ (sessionRun S).rounds_taken ∧
      ∃ p, (sessionRun S).deal_price = some p ∧
        ((sessionRun S).history.get? ((sessionRun S).rounds_taken - 2)).map
          (fun t : NegotiationTurn => t.action.offer_price) =
            some (some p) ∧
        ((sessionRun S).history.get? ((sessionRun S).rounds_taken - 2)).map
          (fun t : NegotiationTurn => t.agent_role) ≠
        ((sessionRun S).history.get? ((sessionRun S).rounds_taken - 1)).map
          (fun t : NegotiationTurn => t.agent_role)) ∧
    ((sessionRun S).termination_reason = .rejected →
      (sessionRun S).deal_made = false ∧
      (sessionRun S).deal_price = none) := by
  have M := sessionRun_master S
  refine ⟨?_, M.rejShape⟩
  intro h
  obtain ⟨_, p, hdp, _, _, _, _, _, h2, hhist⟩ := M.accShape h
  refine ⟨h2, p, hdp, hhist, ?_⟩
  obtain ⟨t0, ht0, _⟩ := Option.map_eq_some'.1 hhist
  have hlt1 : (sessionRun S).rounds_taken - 1 <
      (sessionRun S).history.length := by
    rw [M.histLen]; omega
  obtain ⟨t1, ht1⟩ : ∃ t1, (sessionRun S).history.get?
      ((sessionRun S).rounds_taken - 1) = some t1 :=
    List.get?_eq_get hlt1 ▸ ⟨_, rfl⟩
  rw [ht0, ht1]
  have hr0 := (M.turns _ t0 ht0).2
  have hr1 := (M.turns _ t1 ht1).2
  intro hcon
  obtain hroles := Option.some.inj hcon
  simp only at hroles
  rw [hr0, hr1] at hroles
  have hk : (sessionRun S).rounds_taken - 1 =
      ((sessionRun S).rounds_taken - 2) + 1 := by omega
  rw [hk] at hroles
  exact parityRole_succ_ne _ hroles

unseal Rat.add Rat.mul Rat.inv Rat.sub Rat.ofScientific in
theorem accept_reject_settlement_witness :
    (2 ≤ (sessionRun sessAccept).rounds_taken ∧
      ∃ p, (sessionRun sessAccept).deal_price = some p ∧
        ((sessionRun sessAccept).history.get?
            ((sessionRun sessAccept).rounds_taken - 2)).map
          (fun t : NegotiationTurn => t.action.offer_price) =
            some (some p) ∧
        ((sessionRun sessAccept).history.get?
            ((sessionRun sessAccept).rounds_taken - 2)).map
          (fun t : NegotiationTurn => t.agent_role) ≠
        ((sessionRun sessAccept).history.get?
            ((sessionRun sessAccept).rounds_taken - 1)).map
          (fun t : NegotiationTurn => t.agent_role)) ∧
    ((sessionRun sessReject).deal_made = false ∧
      (sessionRun sessReject).deal_price = none) :=
  ⟨(accept_reject_settlement sessAccept).1 (by decide),
    (accept_reject_settlement sessReject).2 (by decide)⟩

/-- C4: with `max_rounds ≥ 1` every completed session takes between 1 and
`max_rounds` rounds, and transcript turn `i` is acted by the buyer when
`i` is even and by the seller when `i` is odd. -/
theorem rounds_and_alternation (S : SessionParams)
    (h : 1 ≤ S.max_rounds) :
    1 ≤ (sessionRun S).rounds_taken ∧
    (sessionRun S).rounds_taken ≤ S.max_rounds ∧
    ∀ i t, (sessionRun S).history.get? i = some t →
      t.round_number = i ∧
      t.agent_role = (if i % 2 = 0 then AgentRole.buyer else .seller) := by
  have M := sessionRun_master S
  exact ⟨M.roundsGe h, M.roundsLe, fun i t ht =>
    ⟨(M.turns i t ht).1, (M.turns i t ht).2⟩⟩

unseal Rat.add Rat.mul Rat.inv Rat.sub Rat.ofScientific in
theorem rounds_and_alternation_witness :
    1 ≤ (sessionRun sessReject).rounds_taken ∧
    (sessionRun sessReject).rounds_taken ≤ sessReject.max_rounds ∧
    ∀ i t, (sessionRun sessReject).history.get? i = some t →
      t.round_number = i ∧
      t.agent_role = (if i % 2 = 0 then AgentRole.buyer else .seller) :=
  rounds_and_alternation sessReject (by decide)

/-- C7: when `min(buyer.value, buyer.budget)` is strictly below the
seller's cost, no pair of decision agents can drive
`NegotiationSession.run` to an `ACCEPTED` outcome; the session ends
`REJECTED` or `TIMEOUT`. -/
theorem infeasible_never_accepted (S : SessionParams)
    (h : min S.buyer.value S.buyer.budget < S.seller.cost) :
    (sessionRun S).termination_reason ≠ .accepted ∧
    ((sessionRun S).termination_reason = .rejected ∨
      (sessionRun S).termination_reason = .timeout) := by
  have M := sessionRun_master S
  have hne : (sessionRun S).termination_reason ≠ .accepted := by
    intro hacc
    obtain ⟨_, p, _, _, _, hc, hv, hb, _, _⟩ := M.accShape hacc
    exact absurd h (not_lt.2 (le_trans hc (le_min hv hb)))
  rcases M.reason3 with h1 | h1 | h1
  · exact absurd h1 hne
  · exact ⟨hne, Or.inl h1⟩
  · exact ⟨hne, Or.inr h1⟩

unseal Rat.add Rat.mul Rat.inv Rat.sub Rat.ofScientific in
theorem infeasible_never_accepted_witness :
    (sessionRun sessInfeasible).termination_reason ≠ .accepted ∧
    ((sessionRun sessInfeasible).termination_reason = .rejected ∨
      (sessionRun sessInfeasible).termination_reason = .timeout) :=
  infeasible_never_accepted sessInfeasible (by decide)

/-- C10: during a session run the validator's "Cannot accept without a
prior offer" branch is unreachable: no recorded risk event pairs an
attempted `accept` with the "logic" violation kind, because at round 0
an accept is first corrected to an offer and at every later round a
pending last offer exists. -/
theorem no_logic_accept_risk (S : SessionParams) :
    ∀ e, e ∈ (sessionRun S).risk_events →
      ¬(e.attempted_action = "accept" ∧
        e.violation_type = some "logic") := by
  rintro e he ⟨h1, h2⟩
  exact (sessionRun_master S).riskOk e he h1 h2

unseal Rat.add Rat.mul Rat.inv Rat.sub Rat.ofScientific in
theorem no_logic_accept_risk_witness :
    ¬(riskHeadW.attempted_action = "accept" ∧
      riskHeadW.violation_type = some "logic") :=
  no_logic_accept_risk sessRiskAccept riskHeadW (by decide)

/-! ## Judge claims (C5, C6) -/

theorem correct_first_round_offer_unchanged (j : ActionJudge)
    (a : NegotiationAction) (role : AgentRole) (buyer : BuyerState)
    (seller : SellerState) (ha : a.action = .offer) :
    j.correct_first_round a role buyer seller = a := by
  obtain ⟨act, p, m, rt⟩ := a
  simp only at ha
  subst ha
  simp [ActionJudge.correct_first_round]

theorem correctedAt_offer (j : ActionJudge) (a : NegotiationAction)
    (role : AgentRole) (buyer : BuyerState) (seller : SellerState) (r : ℕ)
    (ha : a.action = .offer) : correctedAt j role a buyer seller r = a := by
  rw [correctedAt]
  split_ifs
  · exact correct_first_round_offer_unchanged j a role buyer seller ha
  · rfl

/-- C5: `enforce` validates the (first-round-corrected) action; on failure
it substitutes a `REJECT` carrying the fixed message
"I cannot continue this negotiation." and exactly one risk event
recording the round, the role string, the violation kind, the
human-readable reason, the attempted action type and the attempted
price; a buyer `OFFER` within the global price bounds but above budget
yields that `REJECT` and one risk event of kind "budget"; a valid action
passes through unchanged (literally unchanged past round 0) with no
risk event. -/
theorem enforce_spec (j : ActionJudge) (role : AgentRole)
    (a : NegotiationAction) (buyer : BuyerState) (seller : SellerState)
    (lo : Option ℚ) (item : Item) (r tstep : ℕ) :
    ((validate_action role (correctedAt j role a buyer seller r) buyer
        seller lo item r j.min_price j.max_price).valid = false →
      j.enforce role a buyer seller lo item r tstep =
        (⟨.reject, none, "I cannot continue this negotiation.",
            "Auto-corrected: " ++ (validate_action role
              (correctedAt j role a buyer seller r) buyer seller lo item r
              j.min_price j.max_price).reason⟩,
          some ⟨r, role.value,
            (validate_action role (correctedAt j role a buyer seller r)
              buyer seller lo item r j.min_price j.max_price).violation_type,
            (validate_action role (correctedAt j role a buyer seller r)
              buyer seller lo item r j.min_price j.max_price).reason,
            (correctedAt j role a buyer seller r).action.value,
            (correctedAt j role a buyer seller r).offer_price, tstep⟩)) ∧
    ((validate_action role (correctedAt j role a buyer seller r) buyer
        seller lo item r j.min_price j.max_price).valid = true →
      j.enforce role a buyer seller lo item r tstep =
        (correctedAt j role a buyer seller r, none)) ∧
    (r ≠ 0 →
      (validate_action role a buyer seller lo item r j.min_price
        j.max_price).valid = true →
      j.enforce role a buyer seller lo item r tstep = (a, none)) ∧
    (∀ p : ℚ, role = .buyer → a.action = .offer → a.offer_price = some p →
      j.min_price ≤ p → p ≤ j.max_price → buyer.budget < p →
      (j.enforce role a buyer seller lo item r tstep).1.action = .reject ∧
      ∃ e, (j.enforce role a buyer seller lo item r tstep).2 = some e ∧
        e.violation_type = some "budget") := by
  have hdis := enforce_cases j role a buyer seller lo item r tstep
  have part1 : (validate_action role (correctedAt j role a buyer seller r)
      buyer seller lo item r j.min_price j.max_price).valid = false →
      j.enforce role a buyer seller lo item r tstep =
        (⟨.reject, none, "I cannot continue this negotiation.",
            "Auto-corrected: " ++ (validate_action role
              (correctedAt j role a buyer seller r) buyer seller lo item r
              j.min_price j.max_price).reason⟩,
          some ⟨r, role.value,
            (validate_action role (correctedAt j role a buyer seller r)
              buyer seller lo item r j.min_price j.max_price).violation_type,
            (validate_action role (correctedAt j role a buyer seller r)
              buyer seller lo item r j.min_price j.max_price).reason,
            (correctedAt j role a buyer seller r).action.value,
            (correctedAt j role a buyer seller r).offer_price, tstep⟩) := by
    intro hf
    rcases hdis with ⟨hval, hE⟩ | ⟨hval, hE⟩
    · rw [hval] at hf; cases hf
    · exact hE
  have part2 : (validate_action role (correctedAt j role a buyer seller r)
      buyer seller lo item r j.min_price j.max_price).valid = true →
      j.enforce role a buyer seller lo item r tstep =
        (correctedAt j role a buyer seller r, none) := by
    intro ht
    rcases hdis with ⟨hval, hE⟩ | ⟨hval, hE⟩
    · exact hE
    · rw [hval] at ht; cases ht
  refine ⟨part1, part2, ?_, ?_⟩
  · intro hr ht
    have hca : correctedAt j role a buyer seller r = a :=
      correctedAt_pos j a role buyer seller r hr
    have h2 := part2 (by rw [hca]; exact ht)
    rw [hca] at h2
    exact h2
  · intro p hrole hao hap hmn hmx hbud
    have hca : correctedAt j role a buyer seller r = a :=
      correctedAt_offer j a role buyer seller r hao
    have hvr : validate_action role (correctedAt j role a buyer seller r)
        buyer seller lo item r j.min_price j.max_price =
        ⟨false, "Buyer offer $" ++ fmt2 p ++ " exceeds budget $" ++
          fmt2 buyer.budget, some "budget"⟩ := by
      rw [hca]
      obtain ⟨act, pr, m, rt⟩ := a
      simp only at hao hap
      subst hao
      subst hap
      simp only [validate_action]
      rw [if_neg (by push_neg; exact ⟨hmn, hmx⟩), if_pos ⟨hrole, hbud⟩]
    have hE := part1 (by rw [hvr])
    rw [hE]
    exact ⟨rfl, ⟨_, rfl, by rw [hvr]⟩⟩

unseal Rat.add Rat.mul Rat.inv Rat.sub Rat.ofScientific in
theorem enforce_spec_witness :
    (judgeW.enforce .buyer ⟨.offer, some 30, "", ""⟩ buyerPoor sellerW
      none dummyItem 1 0).1.action = .reject ∧
    ∃ e, (judgeW.enforce .buyer ⟨.offer, some 30, "", ""⟩ buyerPoor
      sellerW none dummyItem 1 0).2 = some e ∧
      e.violation_type = some "budget" :=
  (enforce_spec judgeW .buyer ⟨.offer, some 30, "", ""⟩ buyerPoor sellerW
    none dummyItem 1 0).2.2.2 30 rfl rfl rfl (by decide) (by decide)
    (by decide)

unseal Rat.add Rat.mul Rat.inv Rat.sub Rat.ofScientific in
/-- C6 counterexample: the claim says an `ACCEPT`/`REJECT` carrying a
price keeps that price when corrected to an `OFFER`, but Python's
`action.offer_price or fallback_price` treats a carried `0.0` as absent:
a buyer accept carrying price 0 is corrected to the fallback
`round(buyer.value * 0.5, 2) = 5`, not to 0. -/
theorem correct_first_round_zero_price_cex :
    (judgeW.correct_first_round ⟨.accept, some 0, "", ""⟩ .buyer buyerW
      sellerW).offer_price = some 5 ∧
    ¬((judgeW.correct_first_round ⟨.accept, some 0, "", ""⟩ .buyer buyerW
      sellerW).offer_price = some 0) := by
  constructor
  · decide
  · decide

/-- C6 (amended): at round 0 a `COUNTER` is downgraded to an `OFFER`
keeping its price, an `OFFER` passes unchanged, and an `ACCEPT`/`REJECT`
becomes an `OFFER` priced at the carried price when one is present and
nonzero, and otherwise (absent or zero, by Python `or`-truthiness) at the
deterministic fallback `round(buyer.value * 0.5, 2)` for the buyer or
`round(seller.cost * 1.5, 2)` for the seller. -/
theorem correct_first_round_spec (j : ActionJudge) (role : AgentRole)
    (buyer : BuyerState) (seller : SellerState) (a : NegotiationAction) :
    (a.action = .counter → j.correct_first_round a role buyer seller =
      ⟨.offer, a.offer_price, a.message_public, a.rationale_private⟩) ∧
    (a.action = .offer → j.correct_first_round a role buyer seller = a) ∧
    ((a.action = .accept ∨ a.action = .reject) →
      (j.correct_first_round a role buyer seller).action = .offer ∧
      (j.correct_first_round a role buyer seller).message_public =
        "Opening offer." ∧
      (∀ p, a.offer_price = some p → p ≠ 0 →
        (j.correct_first_round a role buyer seller).offer_price = some p) ∧
      ((a.offer_price = none ∨ a.offer_price = some 0) →
        (j.correct_first_round a role buyer seller).offer_price =
          some (if role = .buyer then pyRound 2 (buyer.value * (1/2))
            else pyRound 2 (seller.cost * (3/2))))) := by
  obtain ⟨act, pr, m, rt⟩ := a
  refine ⟨?_, ?_, ?_⟩
  · intro ha
    simp only at ha
    subst ha
    simp [ActionJudge.correct_first_round]
  · intro ha
    exact correct_first_round_offer_unchanged j _ role buyer seller ha
  · intro ha
    simp only at ha
    have hout : j.correct_first_round ⟨act, pr, m, rt⟩ role buyer seller =
        ⟨.offer, some (pyOrQ pr (if role = .buyer
            then pyRound 2 (buyer.value * (1/2))
            else pyRound 2 (seller.cost * (3/2)))),
          "Opening offer.", "Corrected from accept/reject on round 0."⟩ := by
      rcases ha with ha | ha <;> subst ha <;>
        simp [ActionJudge.correct_first_round]
    rw [hout]
    refine ⟨rfl, rfl, ?_, ?_⟩
    · intro p hp hp0
      simp only at hp
      subst hp
      simp [pyOrQ, hp0]
    · intro hpr
      rcases hpr with hpr | hpr <;> simp only at hpr <;> subst hpr <;>
        simp [pyOrQ]

unseal Rat.add Rat.mul Rat.inv Rat.sub Rat.ofScientific in
theorem correct_first_round_spec_witness :
    (judgeW.correct_first_round ⟨.counter, some 7, "m", "r"⟩ .seller
      buyerW sellerW = ⟨.offer, some 7, "m", "r"⟩) ∧
    (judgeW.correct_first_round ⟨.accept, none, "", ""⟩ .seller buyerW
      sellerW).offer_price =
      some (if AgentRole.seller = .buyer
        then pyRound 2 (buyerW.value * (1/2))
        else pyRound 2 (sellerW.cost * (3/2))) :=
  ⟨(correct_first_round_spec judgeW .seller buyerW sellerW
      ⟨.counter, some 7, "m", "r"⟩).1 rfl,
    ((correct_first_round_spec judgeW .seller buyerW sellerW
      ⟨.accept, none, "", ""⟩).2.2 (Or.inl rfl)).2.2.2 (Or.inl rfl)⟩

/-! ## Parameter precision (C9) -/

theorem roundHalfEvenInt_intCast (m : ℤ) :
    roundHalfEvenInt (m : ℚ) = m := by
  norm_num [roundHalfEvenInt]

theorem pyRound4_cents (n : ℤ) :
    pyRound 4 ((n : ℚ) / 100) = (n : ℚ) / 100 := by
  have h : ((n : ℚ) / 100) * (10 : ℚ) ^ 4 = ((n * 100 : ℤ) : ℚ) := by
    push_cast
    ring
  rw [pyRound, h, roundHalfEvenInt_intCast]
  push_cast
  ring

theorem pyRound2_cents (q : ℚ) :
    pyRound 2 q = ((roundHalfEvenInt (q * 100) : ℤ) : ℚ) / 100 := by
  norm_num [pyRound]

theorem draw_int {σ : Type} (ops : RNGOps σ) (ps : ParameterSource)
    (st : σ) (h : ps.is_int = true) :
    ∃ n : ℤ, (ParameterSource.draw ops ps st).1 = (n : ℚ) := by
  unfold ParameterSource.draw
  cases hv : ps.values with
  | some vals =>
    simp only [h, if_true]
    exact ⟨_, rfl⟩
  | none =>
    simp only [h, if_true]
    exact ⟨_, rfl⟩

theorem draw_float {σ : Type} (ops : RNGOps σ) (ps : ParameterSource)
    (st : σ) (h : ps.is_int = false) :
    ∃ n : ℤ, (ParameterSource.draw ops ps st).1 = (n : ℚ) / 100 := by
  unfold ParameterSource.draw
  cases hv : ps.values with
  | some vals =>
    simp only [h, Bool.false_eq_true, if_false]
    exact ⟨_, pyRound2_cents _⟩
  | none =>
    simp only [h, Bool.false_eq_true, if_false]
    exact ⟨_, pyRound2_cents _⟩

theorem draw_is_int {σ : Type} (ops : RNGOps σ) (ps : ParameterSource)
    (st : σ) :
    ((ParameterSource.draw ops ps st).2.1).is_int = ps.is_int := by
  unfold ParameterSource.draw
  cases hv : ps.values with
  | some vals =>
    dsimp only
    by_cases h1 : vals.length = 1
    · rw [if_pos h1]
    · rw [if_neg h1]
      by_cases h2 : ps.selection = "random"
      · rw [if_pos h2]
      · rw [if_neg h2]
  | none =>
    dsimp only
    by_cases h1 : ps.is_int = true
    · rw [if_pos h1]
    · rw [if_neg h1]

theorem genSellersAux_margin {σ : Type} (ops : RNGOps σ) (step : ℕ) :
    ∀ n i cost_src margin_src patience_src st,
      margin_src.is_int = false →
      ∀ s ∈ (genSellersAux ops step i n cost_src margin_src patience_src
        st).1, ∃ m : ℤ, s.target_margin = (m : ℚ) / 100 := by
  intro n
  induction n with
  | zero =>
    intro i cs ms ps st hm s hs
    simp [genSellersAux] at hs
  | succ n ih =>
    intro i cs ms ps st hm s hs
    simp only [genSellersAux] at hs
    rcases List.mem_cons.1 hs with rfl | hs2
    · obtain ⟨m, hm2⟩ := draw_float ops ms _ hm
      refine ⟨m, ?_⟩
      show pyRound 4 (ParameterSource.draw ops ms _).1 = (m : ℚ) / 100
      rw [hm2, pyRound4_cents]
    · exact ih (i + 1) _ _ _ _ (by rw [draw_is_int]; exact hm) s hs2

unseal Rat.add Rat.mul Rat.inv Rat.sub Rat.ofScientific in
/-- C9 counterexample: the claim says `generate_sellers` gives the target
margin 4 decimal places of precision, but `ParameterSource.draw` has
already rounded the float draw to 2 decimals, so the outer
`round(·, 4)` restores nothing: a fixed margin of 0.1234 comes out as
0.12. -/
theorem target_margin_two_decimals_cex :
    ((generate_sellers unitOps 1 0 marketCfgW (some fixedW)
        ()).1.headD dummySeller).target_margin = 12 / 100 ∧
    ¬(((generate_sellers unitOps 1 0 marketCfgW (some fixedW)
        ()).1.headD dummySeller).target_margin = 1234 / 10000) := by
  constructor
  · decide
  · decide

/-- C9 (amended): integer-typed `ParameterSource` draws return integers
and float-typed draws are rounded to 2 decimal places (multiples of
0.01), for every RNG implementation and state; consequently the seller
`target_margin` produced by `generate_sellers` — `round(draw, 4)` of an
already 2-decimal draw — is always a multiple of 0.01 and never carries
more than 2 decimal places of precision. -/
theorem parameter_draw_precision {σ : Type} (ops : RNGOps σ) :
    (∀ ps st, ps.is_int = true →
      ∃ n : ℤ, (ParameterSource.draw ops ps st).1 = (n : ℚ)) ∧
    (∀ ps st, ps.is_int = false →
      ∃ n : ℤ, (ParameterSource.draw ops ps st).1 = (n : ℚ) / 100) ∧
    (∀ count step cfg fixed st,
      ∀ s ∈ (generate_sellers ops count step cfg fixed st).1,
        ∃ m : ℤ, s.target_margin = (m : ℚ) / 100) := by
  refine ⟨fun ps st h => draw_int ops ps st h,
    fun ps st h => draw_float ops ps st h, ?_⟩
  intro count step cfg fixed st s hs
  exact genSellersAux_margin ops step count 0 _ _ _ st rfl s hs

unseal Rat.add Rat.mul Rat.inv Rat.sub Rat.ofScientific in
theorem parameter_draw_precision_witness :
    (∃ n : ℤ, (ParameterSource.draw unitOps psIntW ()).1 = (n : ℚ)) ∧
    (∃ n : ℤ, (ParameterSource.draw unitOps psFloatW ()).1 =
      (n : ℚ) / 100) ∧
    (∃ m : ℤ, ((generate_sellers unitOps 1 0 marketCfgW (some fixedW)
      ()).1.headD dummySeller).target_margin = (m : ℚ) / 100) :=
  ⟨(parameter_draw_precision unitOps).1 psIntW () rfl,
    (parameter_draw_precision unitOps).2.1 psFloatW () rfl,
    (parameter_draw_precision unitOps).2.2 1 0 marketCfgW (some fixedW) ()
      _ (by decide)⟩

/-! ## Dispersion statistics (C8) -/

theorem sum_sq_dev (c : ℚ) (l : List ℚ) :
    (l.map (fun x => (x - c) ^ 2)).sum =
      (l.map (fun x => x ^ 2)).sum - 2 * c * l.sum + l.length * c ^ 2 := by
  induction l with
  | nil => simp
  | cons x xs ih =>
    simp only [List.map_cons, List.sum_cons, List.length_cons, ih]
    push_cast
    ring

theorem sampleVar_formula (l : List ℚ) (h : 2 ≤ l.length) :
    sampleVar l = ((l.length : ℚ) * (l.map (fun x => x ^ 2)).sum -
      l.sum ^ 2) / ((l.length : ℚ) * ((l.length : ℚ) - 1)) := by
  have h2 : (2 : ℚ) ≤ (l.length : ℚ) := by exact_mod_cast h
  have hn : (l.length : ℚ) ≠ 0 := by linarith
  have hn1 : (l.length : ℚ) - 1 ≠ 0 := by
    intro hc
    have : (l.length : ℚ) = 1 := by linarith
    linarith
  rw [sampleVar, sum_sq_dev, pyMean]
  field_simp
  ring

theorem roundHalfEvenIntR_intCast (m : ℤ) :
    roundHalfEvenIntR (m : ℝ) = m := by
  norm_num [roundHalfEvenIntR]

theorem pyRoundR_one : pyRoundR 2 1 = 1 := by
  have h : (1 : ℝ) * (10 : ℝ) ^ 2 = ((100 : ℤ) : ℝ) := by norm_num
  rw [pyRoundR, h, roundHalfEvenIntR_intCast]
  norm_num

/-- C8 counterexample: on three deals at prices 0, 1 and 2 the code's
`price_std` is `round(statistics.stdev([0,1,2]), 2) = 1` (sample
standard deviation, denominator `n - 1`), while the population standard
deviation the claim asserts is `sqrt(2/3) ≈ 0.816`, so the two differ. -/
theorem price_std_population_cex :
    (compute_tick_stats 0 rsW).price_std ≠ popStdev (dealPrices rsW) := by
  have h1 : dealPrices rsW = [0, 1, 2] := rfl
  have h2 : sampleVar ([0, 1, 2] : List ℚ) = 1 := by
    norm_num [sampleVar, pyMean]
  have h3 : (compute_tick_stats 0 rsW).price_std =
      pyRoundR 2 (pyStdev (dealPrices rsW)) := rfl
  have h4 : (compute_tick_stats 0 rsW).price_std = 1 := by
    rw [h3, h1, pyStdev, h2]
    rw [show ((1 : ℚ) : ℝ) = (1 : ℝ) by norm_num, Real.sqrt_one,
      pyRoundR_one]
  have h5 : popVar ([0, 1, 2] : List ℚ) = 2 / 3 := by
    norm_num [popVar, pyMean]
  rw [h4, h1, popStdev, h5]
  intro hcon
  have h6 : Real.sqrt ((2 / 3 : ℚ) : ℝ) ^ 2 = ((2 / 3 : ℚ) : ℝ) :=
    Real.sq_sqrt (by positivity)
  rw [← hcon] at h6
  norm_num at h6

/-- C8 (amended): in the tick and run statistics, `price_std` is the
2-decimal rounding of the SAMPLE standard deviation (square root of
`(n·Σx² − (Σx)²) / (n(n−1))`, Bessel's correction) of the deal prices
when at least 2 deal prices exist and 0 otherwise — not the population
standard deviation — and `mean_price` / `avg_price` is the 2-decimal
rounded mean over deal prices only. -/
theorem stats_dispersion_spec (tick : ℕ)
    (results : List NegotiationResult) :
    ((compute_tick_stats tick results).mean_price =
      (if dealPrices results = [] then 0
        else pyRound 2 ((dealPrices results).sum /
          ((dealPrices results).length : ℚ)))) ∧
    ((compute_tick_stats tick results).price_std =
      (if 1 < (dealPrices results).length then
        pyRoundR 2 (Real.sqrt ((((((dealPrices results).length : ℚ) *
            ((dealPrices results).map (fun x => x ^ 2)).sum -
            (dealPrices results).sum ^ 2) /
          (((dealPrices results).length : ℚ) *
            (((dealPrices results).length : ℚ) - 1))) : ℚ) : ℝ))
        else 0)) ∧
    ((compute_metrics results).avg_price =
      (if dealPrices results = [] then 0
        else pyRound 2 ((dealPrices results).sum /
          ((dealPrices results).length : ℚ)))) ∧
    ((compute_metrics results).price_std =
      (if 1 < (dealPrices results).length then
        pyRoundR 2 (Real.sqrt ((((((dealPrices results).length : ℚ) *
            ((dealPrices results).map (fun x => x ^ 2)).sum -
            (dealPrices results).sum ^ 2) /
          (((dealPrices results).length : ℚ) *
            (((dealPrices results).length : ℚ) - 1))) : ℚ) : ℝ))
        else 0)) := by
  by_cases hres : results.length = 0
  · obtain rfl : results = [] := List.length_eq_zero.1 hres
    exact ⟨rfl, rfl, rfl, rfl⟩
  · have hmean : (if (dealPrices results).length ≠ 0 then
        pyRound 2 (pyMean (dealPrices results)) else 0) =
        (if dealPrices results = [] then 0
          else pyRound 2 ((dealPrices results).sum /
            ((dealPrices results).length : ℚ))) := by
      by_cases hp : dealPrices results = []
      · rw [if_pos hp, if_neg (show ¬(dealPrices results).length ≠ 0 from
          fun h => h (by rw [hp]; rfl))]
      · rw [if_neg hp, if_pos (show (dealPrices results).length ≠ 0 from
          fun hc => hp (List.length_eq_zero.1 hc))]
        rfl
    have hstd : (if 1 < (dealPrices results).length then
        pyRoundR 2 (pyStdev (dealPrices results)) else 0) =
        (if 1 < (dealPrices results).length then
          pyRoundR 2 (Real.sqrt ((((((dealPrices results).length : ℚ) *
              ((dealPrices results).map (fun x => x ^ 2)).sum -
              (dealPrices results).sum ^ 2) /
            (((dealPrices results).length : ℚ) *
              (((dealPrices results).length : ℚ) - 1))) : ℚ) : ℝ))
          else 0) := by
      by_cases hl : 1 < (dealPrices results).length
      · rw [if_pos hl, if_pos hl, pyStdev,
          sampleVar_formula (dealPrices results) (by omega)]
      · rw [if_neg hl, if_neg hl]
    refine ⟨?_, ?_, ?_, ?_⟩
    · simp only [compute_tick_stats]
      rw [if_neg hres]
      exact hmean
    · simp only [compute_tick_stats]
      rw [if_neg hres]
      exact hstd
    · simp only [compute_metrics]
      rw [if_neg hres]
      exact hmean
    · simp only [compute_metrics]
      rw [if_neg hres]
      exact hstd

end FYPSim
